import Mathlib

/-!
Verification development for the EXPLOITFINDER/crawler repository
(`src/unnamed/part_001`, the current `advanced-crawler.js`, and the earlier
`src/advanced-crawler.js` variant).

The crawler drives a browser, extracts links / forms / endpoints from each
page, and schedules pages through a frontier with a visited set.  This file
shallowly embeds the pure parts of the program (URL handling, the JSON body
walker, anchor / form / inline-script extraction, the network-observer
handlers) and the scheduler's state transitions, and proves the spec's
claims about them.

Conventions:
* JS strings are Lean `String`s; all character-level work is done on
  `List Char` so that proofs evaluate by kernel reduction.
* JS `Set` insertion order / dedup is modelled by `addSet` on lists.
* `new URL(ref, base)` is modelled by `resolveUrl`; a JS exception from the
  URL constructor is modelled as `none` (the source wraps every constructor
  call in `try`/`catch` and skips the offending candidate).
-/

namespace Crawler

/-- Characters that are awkward for the source scanner are named. -/
def squote : Char := Char.ofNat 39

def dquote : Char := Char.ofNat 34

def lbraceC : Char := Char.ofNat 123

def rbraceC : Char := Char.ofNat 125

/-- JS truthiness helper: `attr || default` where an absent or empty
attribute falls back to the default (both `undefined` and `""` are falsy). -/
def jsOr (a : Option String) (d : String) : String :=
  match a with
  | some s => if s = "" then d else s
  | none => d

/-- JS `Set.add` on a list kept in insertion order: append unless present. -/
def addSet (l : List String) (x : String) : List String :=
  if x ∈ l then l else l ++ [x]

/-- `pre` is a prefix of `hay` (character lists). -/
def charsHasPre : List Char → List Char → Bool
  | [], _ => true
  | _ :: _, [] => false
  | p :: ps, h :: hs => p = h && charsHasPre ps hs

/-- `needle` occurs somewhere in `hay` (character lists); JS `includes`. -/
def charsOccur (needle : List Char) : List Char → Bool
  | [] => charsHasPre needle []
  | h :: hs => charsHasPre needle (h :: hs) || charsOccur needle hs

/-- JS `String.prototype.includes`. -/
def strOccurs (needle hay : String) : Bool :=
  charsOccur needle.toList hay.toList

/-- JS `String.prototype.startsWith`. -/
def strStarts (s pre : String) : Bool :=
  charsHasPre pre.toList s.toList

/-- JS `String.prototype.endsWith`. -/
def strEnds (s suf : String) : Bool :=
  charsHasPre suf.toList.reverse s.toList.reverse

/-- Split a character list on every occurrence of `c` (JS `split(c)`). -/
def splitOnCharAux (c : Char) : List Char → List Char → List (List Char)
  | acc, [] => [acc.reverse]
  | acc, h :: t =>
    if h = c then acc.reverse :: splitOnCharAux c [] t
    else splitOnCharAux c (h :: acc) t

def splitOnChar (c : Char) (cs : List Char) : List (List Char) :=
  splitOnCharAux c [] cs

/-- JS `s.split(c)[0]`. -/
def headSplit (c : Char) (s : String) : String :=
  ((splitOnChar c s.toList).headD []).asString

/-- `s.split('#')[0]` — strip everything from the first `#` on. -/
def stripFragment (s : String) : String :=
  headSplit '#' s

/-- Find the first occurrence of `needle` and return the pieces before and
after it. -/
def splitAtSub (needle : List Char) : List Char → Option (List Char × List Char)
  | [] => if needle = [] then some ([], []) else none
  | h :: t =>
    if charsHasPre needle (h :: t) then
      some ([], (h :: t).drop needle.length)
    else
      match splitAtSub needle t with
      | some (a, b) => some (h :: a, b)
      | none => none

def toLowerStr (s : String) : String :=
  (s.toList.map Char.toLower).asString

def toUpperStr (s : String) : String :=
  (s.toList.map Char.toUpper).asString

def digitsToNat : List Char → Option Nat
  | [] => none
  | cs =>
    if cs.all Char.isDigit then
      some (cs.foldl (fun n c => n * 10 + (c.toNat - 48)) 0)
    else none

/-! ## URL model

A shallow model of the WHATWG `URL` class as used by the crawler: http(s)
URLs with host, optional port, path segments, query and fragment.  The
model does not percent-encode and supports only `http`/`https` absolute
URLs (any other constructor input is modelled as a failure, which the
crawler treats the same way as an off-origin URL: the candidate is
dropped). -/

structure Url where
  scheme : String
  host : String
  port : Option Nat
  pathSegs : List String
  query : Option String
  fragment : Option String
deriving DecidableEq, Repr

/-- `url.pathname` — always begins with `/`. -/
def urlPathname (u : Url) : String :=
  "/" ++ String.intercalate "/" u.pathSegs

/-- `url.origin` — scheme `://` host, with any non-default port. -/
def urlOrigin (u : Url) : String :=
  u.scheme ++ "://" ++ u.host ++
    (match u.port with
     | some p => ":" ++ toString p
     | none => "")

/-- `url.toString()`. -/
def urlToString (u : Url) : String :=
  urlOrigin u ++ urlPathname u ++
    (match u.query with
     | some q => "?" ++ q
     | none => "") ++
    (match u.fragment with
     | some f => "#" ++ f
     | none => "")

/-- RFC 3986 / WHATWG dot-segment removal on a segment list. -/
def removeDotSegsAux : List String → List String → List String
  | acc, [] => acc
  | acc, [s] =>
    if s = "." then acc ++ [""]
    else if s = ".." then acc.dropLast ++ [""]
    else acc ++ [s]
  | acc, s :: rest =>
    if s = "." then removeDotSegsAux acc rest
    else if s = ".." then removeDotSegsAux acc.dropLast rest
    else removeDotSegsAux (acc ++ [s]) rest

def removeDotSegs (segs : List String) : List String :=
  removeDotSegsAux [] segs

/-- Split an absolute path (leading `/`) into segments. -/
def splitAbsPath (cs : List Char) : List String :=
  match cs with
  | [] => []
  | '/' :: t => if t = [] then [] else (splitOnChar '/' t).map List.asString
  | _ => (splitOnChar '/' cs).map List.asString

/-- Split a relative path (no leading `/`) into segments. -/
def splitRelPath (cs : List Char) : List String :=
  (splitOnChar '/' cs).map List.asString

def isSchemeChar (c : Char) : Bool :=
  c.isAlpha || c.isDigit || c = '+' || c = '-' || c = '.'

/-- Split `path?query#fragment` into its three parts (fragment first,
then query, as the WHATWG parser does). -/
def splitRef (cs : List Char) : List Char × Option (List Char) × Option (List Char) :=
  let (beforeHash, frag) :=
    match splitAtSub ['#'] cs with
    | some (a, b) => (a, some b)
    | none => (cs, none)
  let (p, q) :=
    match splitAtSub ['?'] beforeHash with
    | some (a, b) => (a, some b)
    | none => (beforeHash, none)
  (p, q, frag)

/-- Parse an absolute `http(s)://` URL; `none` models a constructor throw
(or an input this model does not cover). -/
def parseAbsUrl (s : String) : Option Url :=
  match splitAtSub [':', '/', '/'] s.toList with
  | none => none
  | some (schemeCs, rest) =>
    let scheme := toLowerStr schemeCs.asString
    if schemeCs = [] || !(schemeCs.all isSchemeChar) then none
    else if scheme ≠ "http" && scheme ≠ "https" then none
    else
      let (authCs, tailCs) := rest.span (fun c => c ≠ '/' && c ≠ '?' && c ≠ '#')
      if authCs = [] then none
      else
        let (hostCs, portCs) :=
          match splitAtSub [':'] authCs with
          | some (h, p) => (h, some p)
          | none => (authCs, none)
        let host := toLowerStr hostCs.asString
        if hostCs = [] then none
        else
          let portOk :=
            match portCs with
            | none => some none
            | some pcs =>
              match digitsToNat pcs with
              | none => none
              | some p =>
                if (scheme = "https" && p = 443) || (scheme = "http" && p = 80) then
                  some none
                else some (some p)
          match portOk with
          | none => none
          | some port =>
            let (pathCs, query, frag) := splitRef tailCs
            some
              { scheme := scheme
                host := host
                port := port
                pathSegs := removeDotSegs (splitAbsPath pathCs)
                query := query.map List.asString
                fragment := frag.map List.asString }

/-- `new URL(ref, base)` — resolve `ref` against `base`. -/
def resolveUrl (ref : String) (base : Url) : Option Url :=
  let cs := ref.toList
  let (schemePart, afterScheme) := cs.span isSchemeChar
  if schemePart ≠ [] && charsHasPre [':'] afterScheme then
    -- the reference carries its own scheme: absolute URL
    parseAbsUrl ref
  else if charsHasPre ['/', '/'] cs then
    -- network-path reference: adopt the base scheme
    parseAbsUrl (base.scheme ++ ":" ++ ref)
  else
    let (pathCs, query, frag) := splitRef cs
    if pathCs = [] then
      some { base with
              query := (query.map List.asString).orElse (fun _ => base.query)
              fragment := frag.map List.asString }
    else if charsHasPre ['/'] pathCs then
      some { base with
              pathSegs := removeDotSegs (splitAbsPath pathCs)
              query := query.map List.asString
              fragment := frag.map List.asString }
    else
      some { base with
              pathSegs := removeDotSegs (base.pathSegs.dropLast ++ splitRelPath pathCs)
              query := query.map List.asString
              fragment := frag.map List.asString }

/-- `new URL(s).origin` on a string, propagating constructor failure. -/
def originOfStr (s : String) : Option String :=
  (parseAbsUrl s).map urlOrigin

/-! ## Page findings (`pageData` in `extractInfo`)

Fields follow the `pageData` object literal of `extractInfo`
(`src/unnamed/part_001` lines 173-180).  Framework / React-component
probes run inside the browser and are outside this embedding. -/

/-- One field of an extracted form (the `inputData` literal). -/
structure FieldData where
  name : String
  type : String
  id : String
  value : String
  required : Bool
  placeholder : String
deriving DecidableEq, Repr

/-- One extracted form (the `formDetails` literal). -/
structure FormDetails where
  url : String
  action : String
  method : String
  id : String
  name : String
  class' : String
  fields : List FieldData
deriving DecidableEq, Repr

/-- A captured network request (the `requestData` literal, without
headers/post data which the claims do not touch). -/
structure ReplayRequest where
  url : String
  method : String
  resourceType : String
deriving DecidableEq, Repr

structure PageData where
  links : List String
  forms : List FormDetails
  endpoints : List String
  requestsToReplicateForPage : List ReplayRequest
deriving DecidableEq, Repr

def emptyPageData : PageData :=
  { links := [], forms := [], endpoints := [], requestsToReplicateForPage := [] }

/-! ## JSON body walker (`extractDataFromJson`)

JS note: for a non-null object (arrays included) the `for (const key in
jsonData)` loop enumerates own keys — for arrays those are the index
strings, so the sensitive-key test can never fire on an array element,
while string elements still pass through the URL heuristic; a `null`
value recurses into the function's no-op branch.  The explicit
`Array.isArray` branch of the source is dead code (arrays satisfy
`typeof jsonData === 'object'`). -/

/-- JSON values, with arrays and objects in cons form (`arrCons v tl`
is the array `v` followed by the array `tl`; `objCons k v tl` is the
object entry `k : v` followed by the entries `tl`).  The cons form keeps
the recursion of the walker structural, so that it evaluates by kernel
reduction; it represents exactly the JS values the source walks. -/
inductive Json where
  | null : Json
  | bool (b : Bool) : Json
  | num (n : Int) : Json
  | str (s : String) : Json
  | arrNil : Json
  | arrCons (hd tl : Json) : Json
  | objNil : Json
  | objCons (k : String) (v tl : Json) : Json
deriving Repr

/-- The URL heuristic applied to a string value found in a JSON body
(`part_001` lines 81-92): same-origin resolved URLs become links, others
become `[JSON_API_RESPONSE]` endpoints. -/
def jsonUrlCheck (basePageUrl value : String) (pd : PageData) : PageData :=
  if strStarts value "/" || strStarts value "http://" || strStarts value "https://" then
    match parseAbsUrl basePageUrl with
    | none => pd
    | some baseU =>
      match resolveUrl value baseU with
      | none => pd
      | some u =>
        let fullUrl := stripFragment (urlToString u)
        if strStarts fullUrl (urlOrigin baseU) then
          { pd with links := addSet pd.links fullUrl }
        else
          { pd with endpoints := addSet pd.endpoints ("[JSON_API_RESPONSE] " ++ fullUrl) }
  else pd

/-- Keys whose lower-cased name contains `token` or `session`. -/
def sensKey (k : String) : Bool :=
  strOccurs "token" (toLowerStr k) || strOccurs "session" (toLowerStr k)

/-- The sensitive-key heuristic (`part_001` lines 94-97): record the key
name and the source page only. -/
def jsonSensitiveCheck (basePageUrl k : String) (pd : PageData) : PageData :=
  if sensKey k then
    { pd with endpoints :=
        addSet pd.endpoints ("[JSON_SENSITIVE_KEY] " ++ k ++ " on " ++ basePageUrl) }
  else pd

/-- `extractDataFromJson(jsonData, basePageUrl, pageData)`: the
`for (const key in jsonData)` loop over a non-null object (arrays
included, whose keys are index strings so the sensitive-key test cannot
fire on them).  A string value goes through the URL heuristic (and, for
object entries, the sensitive-key heuristic); an object/array/null value
recurses (the recursion into `null` is the source's no-op branch, like
the iteration over an empty object/array); other primitives are
skipped.  The source's explicit `Array.isArray` branch is dead code
(arrays satisfy the `typeof jsonData === 'object'` test). -/
def extractDataFromJson : Json → String → PageData → PageData
  | .objCons k v tl, basePageUrl, pd =>
    let pd :=
      match v with
      | .str s => jsonSensitiveCheck basePageUrl k (jsonUrlCheck basePageUrl s pd)
      | .arrCons h t => extractDataFromJson (.arrCons h t) basePageUrl pd
      | .objCons k2 v2 t2 => extractDataFromJson (.objCons k2 v2 t2) basePageUrl pd
      | _ => pd
    extractDataFromJson tl basePageUrl pd
  | .arrCons v tl, basePageUrl, pd =>
    let pd :=
      match v with
      | .str s => jsonUrlCheck basePageUrl s pd
      | .arrCons h t => extractDataFromJson (.arrCons h t) basePageUrl pd
      | .objCons k2 v2 t2 => extractDataFromJson (.objCons k2 v2 t2) basePageUrl pd
      | _ => pd
    extractDataFromJson tl basePageUrl pd
  | _, _, pd => pd

/-! ## Anchor link extraction (`part_001` lines 285-307)

`baseForExtraction` is `new URL(currentActualUrl)` where
`currentActualUrl = page.url()` — the live URL after redirects.  The
earlier `src/advanced-crawler.js` runs the same logic but with the
originally requested `url` parameter in both places (lines 219-241). -/

/-- Process one `a[href]` attribute; `some link` means the link is added
to `pageData.links`. -/
def anchorLink (base : Url) (currentActualUrl : String) (href : String) : Option String :=
  if href = "" then none
  else
    let fullUrl? : Option String :=
      if strStarts href "#" then
        some (currentActualUrl ++ href)
      else if strStarts href "javascript:" then
        none
      else
        (resolveUrl href base).map urlToString
    match fullUrl? with
    | none => none
    | some fullUrl =>
      let fullUrl := stripFragment fullUrl
      if strStarts fullUrl (urlOrigin base) then some fullUrl else none

/-- The `src/advanced-crawler.js` variant: although the live page URL is
available on the page object, both the fragment shortcut and the base of
resolution use the originally requested `url` parameter. -/
def anchorLinkAdvanced (requestedUrl : String) (_currentActualUrl : String)
    (href : String) : Option String :=
  match parseAbsUrl requestedUrl with
  | none => none
  | some base => anchorLink base requestedUrl href

/-! ## Form extraction (`part_001` lines 310-340) -/

/-- A form element as seen in the DOM snapshot: optional attributes plus
its field descendants. -/
structure FieldElem where
  tag : String
  name : Option String
  type : Option String
  id : Option String
  value : Option String
  required : Bool
  placeholder : Option String
deriving DecidableEq, Repr

structure FormElem where
  action : Option String
  method : Option String
  id : Option String
  name : Option String
  class' : Option String
  fields : List FieldElem
deriving DecidableEq, Repr

def extractField (f : FieldElem) : FieldData :=
  { name := jsOr f.name ""
    type := jsOr f.type (toLowerStr f.tag)
    id := jsOr f.id ""
    value := jsOr f.value ""
    required := f.required
    placeholder := jsOr f.placeholder "" }

/-- Build the `formDetails` record.  `url` is the `extractInfo` parameter
(the requested URL); the default action and the resolution base come from
the current URL.  A URL-constructor throw on a malformed action would
abort the remaining extraction in the source; it is modelled as `none`
(the record is skipped). -/
def extractForm (base : Url) (currentActualUrl requestedUrl : String)
    (f : FormElem) : Option FormDetails :=
  let action := jsOr f.action currentActualUrl
  let method := toUpperStr (jsOr f.method "GET")
  let action? : Option String :=
    if strStarts action "http" then some action
    else (resolveUrl action base).map urlToString
  match action? with
  | none => none
  | some actionAbs =>
    some
      { url := requestedUrl
        action := actionAbs
        method := method
        id := jsOr f.id ""
        name := jsOr f.name ""
        class' := jsOr f.class' ""
        fields := f.fields.map extractField }

/-! ## Inline-script endpoint extraction (`part_001` lines 343-393)

Each regex of the `patterns` array is translated into a scanner over the
script text.  Scanning follows `RegExp.exec` with the `g` flag: the
leftmost match is taken and scanning resumes after it; every matcher
consumes at least one character.  Greedy character classes (`[^'"]+`,
`[^}]*`) are deterministic here because the class excludes its own
terminator; where the engine's backtracking could pick a later `method:`/
`url:` key inside one brace group, this model picks the first — the two
agree whenever the key occurs once, as in all inputs considered. -/

/-- JS `\s` (the ASCII part, which is all the crawler's inputs use). -/
def isWsJS (c : Char) : Bool :=
  c = ' ' || c = '\t' || c = '\n' || c = '\r' || c.toNat = 11 || c.toNat = 12

def skipWsJS (cs : List Char) : List Char :=
  cs.dropWhile isWsJS

def matchChar (c : Char) : List Char → Option (List Char)
  | [] => none
  | h :: t => if h = c then some t else none

/-- Match a literal case-insensitively (the `i` flag). -/
def matchLitCI : List Char → List Char → Option (List Char)
  | [], cs => some cs
  | _ :: _, [] => none
  | l :: ls, c :: cs => if l.toLower = c.toLower then matchLitCI ls cs else none

/-- Match a literal case-sensitively. -/
def matchLit : List Char → List Char → Option (List Char)
  | [], cs => some cs
  | _ :: _, [] => none
  | l :: ls, c :: cs => if l = c then matchLit ls cs else none

/-- Consume one of `'` or `"` (the class `['"]`). -/
def matchQuote : List Char → Option (List Char)
  | [] => none
  | c :: t => if c = squote || c = dquote then some t else none

/-- Consume `['"]` when present (the class `['"]?`). -/
def matchOptQuote (cs : List Char) : List Char :=
  match matchQuote cs with
  | some t => t
  | none => cs

/-- `([^'"]+)` — one or more non-quote characters, greedily. -/
def captureNonQuote (cs : List Char) : Option (List Char × List Char) :=
  let (v, rest) := cs.span (fun c => !(c = squote || c = dquote))
  if v = [] then none else some (v, rest)

/-- Try the ordered alternatives and return the matched text. -/
def matchAltCI : List String → List Char → Option (String × List Char)
  | [], _ => none
  | w :: ws, cs =>
    match matchLitCI w.toList cs with
    | some rest => some ((cs.take w.toList.length).asString, rest)
    | none => matchAltCI ws cs

/-- Attempt `key\s*:\s*['"]([^'"]+)['"][^}]*\}` at this exact position. -/
def keyValueAt (key : List Char) (cs : List Char) : Option (String × List Char) := do
  let cs ← matchLitCI key cs
  let cs := skipWsJS cs
  let cs ← matchChar ':' cs
  let cs := skipWsJS cs
  let cs ← matchQuote cs
  let (v, cs) ← captureNonQuote cs
  let cs ← matchQuote cs
  let (_, cs) := cs.span (fun c => c ≠ rbraceC)
  let cs ← matchChar rbraceC cs
  pure (v.asString, cs)

/-- `[^}]*key\s*:\s*['"]([^'"]+)['"][^}]*\}` — search for the key inside
the current brace group (the leading `[^}]*` cannot cross a `}`). -/
def keyValueIn (key : List Char) : List Char → Option (String × List Char)
  | [] => none
  | c :: rest =>
    match keyValueAt key (c :: rest) with
    | some r => some r
    | none => if c = rbraceC then none else keyValueIn key rest

/-- The optional `(?:,\s*\{[^}]*method\s*:\s*['"]([^'"]+)['"][^}]*\})?`
tail of the fetch pattern. -/
def p0MethodOpt (cs : List Char) : Option (String × List Char) := do
  let cs ← matchChar ',' cs
  let cs := skipWsJS cs
  let cs ← matchChar lbraceC cs
  keyValueIn "method".toList cs

/-- Pattern 0: `fetch\s*\(\s*['"]([^'"]+)['"]\s*(?:,\s*\{...\})?` (gi). -/
def p0At (cs : List Char) : Option ((String × Option String) × List Char) := do
  let cs ← matchLitCI "fetch".toList cs
  let cs := skipWsJS cs
  let cs ← matchChar '(' cs
  let cs := skipWsJS cs
  let cs ← matchQuote cs
  let (url, cs) ← captureNonQuote cs
  let cs ← matchQuote cs
  let cs := skipWsJS cs
  match p0MethodOpt cs with
  | some (m, rest) => some ((url.asString, some m), rest)
  | none => some ((url.asString, none), cs)

/-- Pattern 1: `axios\.(get|post|put|delete|patch|options|head)\s*\(\s*['"]([^'"]+)['"]` (gi). -/
def p1At (cs : List Char) : Option ((String × String) × List Char) := do
  let cs ← matchLitCI "axios.".toList cs
  let (meth, cs) ← matchAltCI ["get", "post", "put", "delete", "patch", "options", "head"] cs
  let cs := skipWsJS cs
  let cs ← matchChar '(' cs
  let cs := skipWsJS cs
  let cs ← matchQuote cs
  let (url, cs) ← captureNonQuote cs
  let cs ← matchQuote cs
  pure ((meth, url.asString), cs)

/-- Pattern 2: `\$\.(ajax|get|post)\s*\(\s*(?:['"]([^'"]+)['"]|\{[^}]*url\s*:\s*['"]([^'"]+)['"][^}]*\})` (gi). -/
def p2At (cs : List Char) : Option ((String × Option String × Option String) × List Char) := do
  let cs ← matchChar '$' cs
  let cs ← matchChar '.' cs
  let (word, cs) ← matchAltCI ["ajax", "get", "post"] cs
  let cs := skipWsJS cs
  let cs ← matchChar '(' cs
  let cs := skipWsJS cs
  let quoted : Option (String × List Char) := do
    let cs ← matchQuote cs
    let (url, cs) ← captureNonQuote cs
    let cs ← matchQuote cs
    pure (url.asString, cs)
  match quoted with
  | some (u, rest) => pure ((word, some u, none), rest)
  | none => do
    let cs ← matchChar lbraceC cs
    let (v, rest) ← keyValueIn "url".toList cs
    pure ((word, none, some v), rest)

/-- Pattern 3: `url\s*:\s*['"]([^'"]+)['"]` (gi). -/
def p3At (cs : List Char) : Option (String × List Char) := do
  let cs ← matchLitCI "url".toList cs
  let cs := skipWsJS cs
  let cs ← matchChar ':' cs
  let cs := skipWsJS cs
  let cs ← matchQuote cs
  let (url, cs) ← captureNonQuote cs
  let cs ← matchQuote cs
  pure (url.asString, cs)

/-- After one of pattern 4's keywords: `['"]?\s*:\s*['"]([^'"]+)['"]`. -/
def p4Cont (cs : List Char) : Option (String × List Char) := do
  let cs := matchOptQuote cs
  let cs := skipWsJS cs
  let cs ← matchChar ':' cs
  let cs := skipWsJS cs
  let cs ← matchQuote cs
  let (url, cs) ← captureNonQuote cs
  let cs ← matchQuote cs
  pure (url.asString, cs)

/-- Pattern 4: `['"]?(?:endpoint|api(?:Path|Url)?|url)['"]?\s*:\s*['"]([^'"]+)['"]`
(gi); the keyword alternatives are tried in the regex's order, with the
greedy optional suffix of `api` first. -/
def p4At (cs : List Char) : Option (String × List Char) :=
  let cs1 := matchOptQuote cs
  (matchLitCI "endpoint".toList cs1 >>= p4Cont) <|>
  (matchLitCI "apiPath".toList cs1 >>= p4Cont) <|>
  (matchLitCI "apiUrl".toList cs1 >>= p4Cont) <|>
  (matchLitCI "api".toList cs1 >>= p4Cont) <|>
  (matchLitCI "url".toList cs1 >>= p4Cont)

/-- `\w` or `/` or `-` (the word-slash-dash class). -/
def isUrlWordChar (c : Char) : Bool :=
  c.isAlphanum || c = '_' || c = '/' || c = '-'

/-- Pattern 5: slash-api-slash followed by one or more word, slash or dash characters (g, case-sensitive). -/
def p5At (cs : List Char) : Option (String × List Char) := do
  let cs ← matchLit "/api/".toList cs
  let (w, cs) := cs.span isUrlWordChar
  if w = [] then none else pure ("/api/" ++ w.asString, cs)

/-- Pattern 6: the literal slash-graphql (g, case-sensitive). -/
def p6At (cs : List Char) : Option (String × List Char) := do
  let cs ← matchLit "/graphql".toList cs
  pure ("/graphql", cs)

/-- Pattern 7: slash-v-digits-slash followed by one or more word, slash or dash characters (g, case-sensitive). -/
def p7At (cs : List Char) : Option (String × List Char) := do
  let cs ← matchLit "/v".toList cs
  let (ds, cs) := cs.span Char.isDigit
  if ds = [] then none
  else do
    let cs ← matchChar '/' cs
    let (w, cs) := cs.span isUrlWordChar
    if w = [] then none else pure ("/v" ++ ds.asString ++ "/" ++ w.asString, cs)

/-- `RegExp.exec` loop with the `g` flag: leftmost match, resume after
it; fuelled by the input length (every matcher consumes ≥ 1 character). -/
def scanAllAux {α : Type} (matchAt : List Char → Option (α × List Char)) :
    Nat → List Char → List α
  | 0, _ => []
  | _ + 1, [] => []
  | fuel + 1, c :: tl =>
    match matchAt (c :: tl) with
    | some (a, rest) => a :: scanAllAux matchAt fuel rest
    | none => scanAllAux matchAt fuel tl

def scanAll {α : Type} (matchAt : List Char → Option (α × List Char))
    (cs : List Char) : List α :=
  scanAllAux matchAt cs.length cs

/-- One match after the per-pattern group bookkeeping of lines 360-368:
pattern index, extracted URL string, inferred method. -/
structure ScriptMatch where
  patternIndex : Nat
  url : String
  method : Option String
deriving DecidableEq, Repr

/-- All matches of the eight patterns over one script, in pattern order
(the `patterns.forEach` / `while exec` loops). -/
def scriptMatches (content : List Char) : List ScriptMatch :=
  ((scanAll p0At content).map fun p =>
    { patternIndex := 0, url := p.1, method := p.2.map toUpperStr }) ++
  ((scanAll p1At content).map fun p =>
    { patternIndex := 1, url := p.2, method := some (toUpperStr p.1) }) ++
  ((scanAll p2At content).map fun p =>
    { patternIndex := 2
      url := (p.2.1.orElse fun _ => p.2.2).getD ""
      method :=
        if toLowerStr p.1 = "get" || toLowerStr p.1 = "post" then
          some (toUpperStr p.1)
        else none }) ++
  ((scanAll p3At content).map fun u =>
    { patternIndex := 3, url := u, method := none }) ++
  ((scanAll p4At content).map fun u =>
    { patternIndex := 4, url := u, method := none }) ++
  ((scanAll p5At content).map fun u =>
    { patternIndex := 5, url := u, method := none }) ++
  ((scanAll p6At content).map fun u =>
    { patternIndex := 6, url := u
      method := if strOccurs "/graphql" u then some "POST" else none }) ++
  ((scanAll p7At content).map fun u =>
    { patternIndex := 7, url := u, method := none })

/-- `base.pathname.substring(0, base.pathname.lastIndexOf('/') + 1)`. -/
def pathDir (base : Url) : String :=
  let cs := (urlPathname base).toList
  ((cs.reverse.dropWhile (fun c => c ≠ '/')).reverse).asString

/-- Turn one match into an endpoint entry (lines 370-390): `/`-prefixed
candidates resolve against the base, `http(s)://` candidates are kept
verbatim, other relative candidates resolve against the base directory;
tag and method prefix per lines 386-388. -/
def scriptEndpointEntry (base : Url) (m : ScriptMatch) : Option String :=
  if m.url = "" then none
  else
    let full? : Option String :=
      if strStarts m.url "/" then (resolveUrl m.url base).map urlToString
      else if strStarts m.url "http://" || strStarts m.url "https://" then some m.url
      else if strEnds (urlPathname base) "/" && !(strStarts m.url "/") then
        (resolveUrl (urlPathname base ++ m.url) base).map urlToString
      else if !(strStarts m.url "/") then
        (resolveUrl (pathDir base ++ m.url) base).map urlToString
      else none
    match full? with
    | none => none
    | some full =>
      let tag := if m.method.isSome then "[SCRIPT_EVIDENT]" else "[SCRIPT_URL_ONLY]"
      let methodPre :=
        match m.method with
        | some mm => mm ++ " "
        | none => ""
      if m.patternIndex = 6 && strOccurs "/graphql" full && m.method.isNone then
        some ("[SCRIPT_EVIDENT] " ++ "POST " ++ full)
      else
        some (tag ++ " " ++ methodPre ++ full)

/-- Process one inline script (`$('script:not([src])').each` body). -/
def scriptEndpointsInto (base : Url) (content : String) (pd : PageData) : PageData :=
  if content = "" then pd
  else
    (scriptMatches content.toList).foldl
      (fun pd m =>
        match scriptEndpointEntry base m with
        | some e => { pd with endpoints := addSet pd.endpoints e }
        | none => pd)
      pd

/-! ## Network observers (`part_001` lines 186-219)

The `request`/`response` handlers installed before navigation close over
`pageData` and append to it whenever an event fires — also while a
navigation that will eventually throw is in progress. -/

inductive NetEvent where
  | request (url method resourceType : String) : NetEvent
  | response (url : String) (status : Nat) (method resourceType : String)
      (jsonBody : Option Json) : NetEvent

/-- The `page.on('request')` handler: non-GET requests are recorded for
replay; XHR / fetch / API-shaped requests become `[INTERCEPTED]`
endpoints. -/
def onRequest (pd : PageData) (url method resourceType : String) : PageData :=
  let pd :=
    if method ≠ "GET" then
      { pd with requestsToReplicateForPage :=
          pd.requestsToReplicateForPage ++ [⟨url, method, resourceType⟩] }
    else pd
  if resourceType = "xhr" || resourceType = "fetch" ||
      strOccurs "/api/" url || strOccurs "/graphql" url then
    { pd with endpoints := addSet pd.endpoints ("[INTERCEPTED] " ++ method ++ " " ++ url) }
  else pd

/-- The `page.on('response')` handler: API-shaped non-2xx/3xx responses
become `[API_ERROR_<status>]` endpoints; JSON bodies are walked with the
page's requested URL as base.  `jsonBody = none` covers both non-JSON
responses and a JSON parse failure (swallowed by the source). -/
def onResponse (pageUrl : String) (pd : PageData) (url : String) (status : Nat)
    (method resourceType : String) (jsonBody : Option Json) : PageData :=
  let entry := "[API_ERROR_" ++ toString status ++ "] " ++ method ++ " " ++ url
  let pd :=
    if (resourceType = "xhr" || resourceType = "fetch" || strOccurs "/api/" url) &&
        (decide (status < 200) || decide (status ≥ 400)) then
      { pd with endpoints := addSet pd.endpoints entry }
    else pd
  match jsonBody with
  | some j => extractDataFromJson j pageUrl pd
  | none => pd

def observerStep (pageUrl : String) (pd : PageData) : NetEvent → PageData
  | .request url method resourceType => onRequest pd url method resourceType
  | .response url status method resourceType jsonBody =>
    onResponse pageUrl pd url status method resourceType jsonBody

/-! ## The per-page extraction pass (`extractInfo`, initial call)

A page snapshot is the anchors / forms / inline scripts / resource URLs
that cheerio would find in `page.content()`.  Framework and React
component probes run inside the browser and are left out of the model. -/

structure Dom where
  anchors : List String
  formEls : List FormElem
  inlineScripts : List String
  resources : List String
deriving Repr

def emptyDom : Dom :=
  { anchors := [], formEls := [], inlineScripts := [], resources := [] }

/-- The DOM part of `extractInfo` (lines 281-409): link, form,
inline-script and resource extraction against `baseForExtraction =
new URL(page.url())`. -/
def domExtract (base : Url) (currentActualUrl requestedUrl : String)
    (doc : Dom) (pd : PageData) : PageData :=
  let pd := doc.anchors.foldl
    (fun pd href =>
      match anchorLink base currentActualUrl href with
      | some l => { pd with links := addSet pd.links l }
      | none => pd) pd
  let pd := doc.formEls.foldl
    (fun pd f =>
      match extractForm base currentActualUrl requestedUrl f with
      | some fd => { pd with forms := pd.forms ++ [fd] }
      | none => pd) pd
  let pd := doc.inlineScripts.foldl
    (fun pd s => scriptEndpointsInto base s pd) pd
  doc.resources.foldl
    (fun pd src =>
      if src = "" then pd
      else
        match resolveUrl src base with
        | some u =>
          { pd with endpoints := addSet pd.endpoints ("[RESOURCE_URL] " ++ urlToString u) }
        | none => pd) pd

/-- `extractInfo(url, page, true)` as a function of the page's behaviour:
the observer events that fired, whether `page.goto` succeeded, the live
URL and the DOM snapshot.  When navigation throws, the `catch` at line
427 returns `pageData` as accumulated by the observers — the DOM is never
read.  A `new URL(page.url())` failure likewise aborts the DOM phase with
the partial data. -/
def extractInfo (url : String) (events : List NetEvent) (navOk : Bool)
    (currentActualUrl : String) (doc : Dom) : PageData :=
  let pd := events.foldl (observerStep url) emptyPageData
  if navOk then
    match parseAbsUrl currentActualUrl with
    | some base => domExtract base currentActualUrl url doc pd
    | none => pd
  else pd

/-! ## Scheduler state machine (`crawl` + `processUrlAndExtractData`)

The crawler is single-threaded JS: `visited.has(url)` and
`visited.add(url)` at the top of `processUrlAndExtractData` (lines
599-602) run without an intervening suspension point, so the pair is one
atomic test-and-set.  The state machine below has one transition per such
atomic block; interleavings of concurrent sessions are arbitrary
sequences of transitions.

`dispatched` logs every session launch that passed the test-and-set —
i.e. every URL for which a page session is created and the initial
extraction pass runs. -/

def MAX_DEPTH : Nat := 3

def WAIT_TIME : Nat := 5000

def MAX_CONCURRENT_PAGES : Nat := 5

structure CrawlState where
  visited : List String
  queue : List (String × Nat)
  dispatched : List (String × Nat)
deriving DecidableEq, Repr

def initState (startUrl : String) : CrawlState :=
  { visited := [], queue := [(startUrl, 0)], dispatched := [] }

/-- One atomic action of the crawler. -/
inductive Step : CrawlState → CrawlState → Prop
  /-- Lines 704-715 + 598-604: the head item is dequeued, passes the
  visited/depth guards and the session's test-and-set, and a session is
  launched for it. -/
  | dispatch (s : CrawlState) (u : String) (d : Nat) (rest : List (String × Nat))
      (hq : s.queue = (u, d) :: rest)
      (hv : u ∉ s.visited)
      (hd : d ≤ MAX_DEPTH) :
      Step s { visited := s.visited ++ [u]
               queue := rest
               dispatched := s.dispatched ++ [(u, d)] }
  /-- Lines 706-711: the head item is dropped because it is already
  visited or too deep. -/
  | dropHead (s : CrawlState) (u : String) (d : Nat) (rest : List (String × Nat))
      (hq : s.queue = (u, d) :: rest)
      (hdrop : u ∈ s.visited ∨ MAX_DEPTH < d) :
      Step s { s with queue := rest }
  /-- Lines 716-722: a completed session for `(parent, d)` reports a new
  link, which passes the enqueue filter. -/
  | enqueue (s : CrawlState) (parent : String) (d : Nat) (link : String)
      (hp : (parent, d) ∈ s.dispatched)
      (hv : link ∉ s.visited)
      (hq : link ∉ s.queue.map Prod.fst)
      (hd : d + 1 ≤ MAX_DEPTH) :
      Step s { s with queue := s.queue ++ [(link, d + 1)] }
  /-- Lines 653-661: inside the session for `(parent, d)`, a form
  submission navigated from `uBefore` to `uAfter`, which is new, not yet
  visited and passes the origin prefix check — it is added directly to
  `visited` without a session of its own. -/
  | formVisit (s : CrawlState) (parent : String) (d : Nat) (uBefore uAfter : String)
      (b : Url)
      (hp : (parent, d) ∈ s.dispatched)
      (hne : uAfter ≠ uBefore)
      (hv : uAfter ∉ s.visited)
      (hb : parseAbsUrl parent = some b)
      (ho : strStarts uAfter (urlOrigin b) = true) :
      Step s { s with visited := s.visited ++ [uAfter] }

/-- Reachability between crawler states. -/
def ReachFrom (s t : CrawlState) : Prop :=
  Relation.ReflTransGen Step s t

/-- States reachable in a run started at `startUrl`. -/
def Reach (startUrl : String) (s : CrawlState) : Prop :=
  ReachFrom (initState startUrl) s

/-! ## Deterministic sequential runner

The same loop with `MAX_CONCURRENT_PAGES = 1` behaviour: each dequeued
item is either dropped or fully processed before the next iteration, with
the session's links (`pages u`) filtered exactly as in lines 717-721.  A
session whose navigation fails returns `[]` links (the `catch` paths),
which is expressed by `pages u = []`. -/

/-- The `newLinks.forEach` requeue filter (lines 717-722): a link joins
the frontier at depth `d + 1` when it is unvisited, not already queued
and within the depth bound. -/
def enqueueLinks (visited' : List String) (d : Nat) (q : List (String × Nat)) :
    List String → List (String × Nat)
  | [] => q
  | link :: rest =>
    enqueueLinks visited' d
      (if link ∉ visited' ∧ link ∉ q.map Prod.fst ∧ d + 1 ≤ MAX_DEPTH then
        q ++ [(link, d + 1)]
      else q)
      rest

def crawlStep (pages : String → List String) (s : CrawlState) : CrawlState :=
  match s.queue with
  | [] => s
  | (u, d) :: rest =>
    if u ∈ s.visited ∨ MAX_DEPTH < d then { s with queue := rest }
    else
      let visited' := s.visited ++ [u]
      { visited := visited'
        queue := enqueueLinks visited' d rest (pages u)
        dispatched := s.dispatched ++ [(u, d)] }

/-- Iterate the sequential crawler. -/
def crawlRun (pages : String → List String) : Nat → CrawlState → CrawlState
  | 0, s => s
  | n + 1, s => crawlRun pages n (crawlStep pages s)

/-! ## Sensitive-value equivalence (for the noninterference claim)

Two JSON documents are `SensEquiv` when they have the same shape and agree
everywhere, except that the string value stored under a key whose name
contains `token`/`session` may differ arbitrarily. -/

inductive SensEquiv : Json → Json → Prop where
  | null : SensEquiv .null .null
  | bool (a : Bool) : SensEquiv (.bool a) (.bool a)
  | num (n : Int) : SensEquiv (.num n) (.num n)
  | str (s : String) : SensEquiv (.str s) (.str s)
  | arrNil : SensEquiv .arrNil .arrNil
  | arrCons {x y xs ys : Json} :
      SensEquiv x y → SensEquiv xs ys →
      SensEquiv (.arrCons x xs) (.arrCons y ys)
  | objNil : SensEquiv .objNil .objNil
  | objCons (k : String) {v w fs gs : Json} :
      SensEquiv v w → SensEquiv fs gs →
      SensEquiv (.objCons k v fs) (.objCons k w gs)
  | objConsSens (k : String) (s t : String) {fs gs : Json} :
      sensKey k = true → SensEquiv fs gs →
      SensEquiv (.objCons k (.str s) fs) (.objCons k (.str t) gs)

/-- The `[JSON_SENSITIVE_KEY]` entries of an endpoint list. -/
def sensMarkers (l : List String) : List String :=
  l.filter (fun e => strStarts e "[JSON_SENSITIVE_KEY]")

/-! ## Concrete scenario data used by the claim theorems -/

/-- `https://a.test/` parsed. -/
def aTest : Url :=
  { scheme := "https", host := "a.test", port := none
    pathSegs := [], query := none, fragment := none }

/-- `https://a.test/p/x` parsed. -/
def aTestPX : Url :=
  { scheme := "https", host := "a.test", port := none
    pathSegs := ["p", "x"], query := none, fragment := none }

/-- `https://a.test/q/z` parsed. -/
def aTestQZ : Url :=
  { scheme := "https", host := "a.test", port := none
    pathSegs := ["q", "z"], query := none, fragment := none }

/-- The spec's example inline script with an evident POST method. -/
def fetchLit : String :=
  "fetch(\x27/api/login\x27, \x7bmethod:\x27POST\x27\x7d)"

/-- An inline script with a bare `/graphql` occurrence. -/
def gqlScriptEx : String :=
  "const u = \x27/graphql\x27;"

/-- A script that contains `fetchLit` as a substring, but inside a string
literal opened by an earlier `fetch(` call, so the fetch pattern's first
match consumes the inner call's opening quote. -/
def fetchTrap : String :=
  "fetch(\x27fetch(\x27/api/login\x27, \x7bmethod:\x27POST\x27\x7d)\x27)"

/-- A page whose only anchor points at a prefix-colliding foreign origin. -/
def evilLinkDoc : Dom :=
  { anchors := ["https://a.test.evil.com/x"], formEls := []
    inlineScripts := [], resources := [] }

/-- A page with one same-origin relative anchor. -/
def slashYDoc : Dom :=
  { anchors := ["/y"], formEls := [], inlineScripts := [], resources := [] }

/-- JSON body with a URL-shaped value under a sensitive key. -/
def tokenJsonUrl : Json :=
  .objCons "token" (.str "http://evil.example/x") .objNil

/-- The same body with a non-URL value under the sensitive key. -/
def tokenJsonPlain : Json :=
  .objCons "token" (.str "zz") .objNil

/-- Observer events of a navigation attempt that will time out: the
document request to an API-shaped URL has already fired. -/
def navFailEvents : List NetEvent :=
  [.request "https://a.test/api/x" "GET" "document"]

/-- A form element with no attributes at all. -/
def noAttrForm : FormElem :=
  { action := none, method := none, id := none, name := none
    class' := none, fields := [] }

/-- A form whose relative action starts with the literal `http`. -/
def httpdocsForm : FormElem :=
  { action := some "httpdocs/x", method := some "post", id := none
    name := none, class' := none, fields := [] }

/-- Link graph for the sibling-processing scenario: the start page links
to `a` and `b`; the session for `a` fails (contributes no links). -/
def pagesSibling : String → List String := fun u =>
  if u = "https://s.test/" then ["https://s.test/a", "https://s.test/b"] else []

/-- Two-page site for the termination witness. -/
def pagesSmall : String → List String := fun u =>
  if u = "https://w.test/" then ["https://w.test/a"] else []

def siteSmall : Finset String :=
  {"https://w.test/", "https://w.test/a"}

/-! # Theorems

## Generic character, string and insertion-set lemmas -/

theorem charsHasPre_self_append (n rest : List Char) :
    charsHasPre n (n ++ rest) = true := by
  induction n with
  | nil => rfl
  | cons c cs ih => simp [charsHasPre, ih]

theorem charsHasPre_true_append {n h : List Char}
    (hp : charsHasPre n h = true) (rest : List Char) :
    charsHasPre n (h ++ rest) = true := by
  induction n generalizing h with
  | nil => rfl
  | cons c cs ih =>
    cases h with
    | nil => simp [charsHasPre] at hp
    | cons d ds =>
      simp only [charsHasPre, Bool.and_eq_true, decide_eq_true_eq] at hp
      simp only [List.cons_append, charsHasPre, Bool.and_eq_true, decide_eq_true_eq]
      exact ⟨hp.1, ih hp.2 ⟩

theorem charsHasPre_false_append {n h : List Char}
    (hf : charsHasPre n h = false) (hl : n.length ≤ h.length) (rest : List Char) :
    charsHasPre n (h ++ rest) = false := by
  induction n generalizing h with
  | nil => simp [charsHasPre] at hf
  | cons c cs ih =>
    cases h with
    | nil => simp at hl
    | cons d ds =>
      simp only [charsHasPre, Bool.and_eq_false_iff, decide_eq_false_iff_not] at hf
      simp only [List.cons_append, charsHasPre, Bool.and_eq_false_iff,
        decide_eq_false_iff_not]
      rcases hf with hf | hf
      · exact Or.inl hf
      · by_cases hcd : c = d
        · exact Or.inr (ih hf (by simpa using hl))
        · exact Or.inl hcd

/-- A true prefix check survives appending a suffix to the string. -/
theorem strStarts_append_of_starts {a pre : String} (h : strStarts a pre = true)
    (t : String) : strStarts (a ++ t) pre = true :=
  charsHasPre_true_append h t.toList

/-- A failed prefix check with enough characters inspected survives
appending a suffix to the string. -/
theorem strStarts_append_of_fails {a pre : String} (h : strStarts a pre = false)
    (hl : pre.toList.length ≤ a.toList.length) (t : String) :
    strStarts (a ++ t) pre = false :=
  charsHasPre_false_append h hl t.toList

theorem mem_addSet_self (l : List String) (x : String) : x ∈ addSet l x := by
  unfold addSet; split
  · assumption
  · simp

theorem mem_addSet_of_mem {l : List String} {y : String} (h : y ∈ l) (x : String) :
    y ∈ addSet l x := by
  unfold addSet; split
  · exact h
  · exact List.mem_append_left _ h

theorem mem_addSet_elim {l : List String} {x y : String} (h : y ∈ addSet l x) :
    y ∈ l ∨ y = x := by
  unfold addSet at h; split at h
  · exact Or.inl h
  · simpa using h

theorem filter_addSet_pos {p : String → Bool} {x : String} (hx : p x = true)
    (l : List String) : (addSet l x).filter p = addSet (l.filter p) x := by
  unfold addSet
  by_cases hmem : x ∈ l
  · have : x ∈ l.filter p := List.mem_filter.mpr ⟨hmem, hx⟩
    simp [hmem, this]
  · have hnf : x ∉ l.filter p := fun hc => hmem (List.mem_filter.mp hc).1
    simp [hmem, hnf, List.filter_append, hx]

theorem filter_addSet_neg {p : String → Bool} {x : String} (hx : p x = false)
    (l : List String) : (addSet l x).filter p = l.filter p := by
  unfold addSet; split
  · rfl
  · simp [List.filter_append, hx]

/-- `[JSON_SENSITIVE_KEY] <key> on <page>` entries carry the sensitive tag. -/
theorem sens_entry_tagged (k b : String) :
    strStarts ("[JSON_SENSITIVE_KEY] " ++ k ++ " on " ++ b) "[JSON_SENSITIVE_KEY]"
      = true := by
  have h1 : strStarts "[JSON_SENSITIVE_KEY] " "[JSON_SENSITIVE_KEY]" = true := by decide
  exact strStarts_append_of_starts
    (strStarts_append_of_starts (strStarts_append_of_starts h1 k) " on ") b

/-- `[JSON_API_RESPONSE]` entries never carry the sensitive tag. -/
theorem api_entry_not_tagged (s : String) :
    strStarts ("[JSON_API_RESPONSE] " ++ s) "[JSON_SENSITIVE_KEY]" = false :=
  strStarts_append_of_fails (by decide) (by decide) s

/-! ## Scheduler invariants -/

theorem step_visited_mono {s t : CrawlState} (h : Step s t) :
    ∀ x ∈ s.visited, x ∈ t.visited := by
  cases h with
  | dispatch u d rest hq hv hd => exact fun x hx => List.mem_append_left _ hx
  | dropHead u d rest hq hdrop => exact fun x hx => hx
  | enqueue parent d link hp hv hq hd => exact fun x hx => hx
  | formVisit parent d uB uA b hp hne hv hb ho =>
    exact fun x hx => List.mem_append_left _ hx

theorem reachFrom_visited_mono {s t : CrawlState} (h : ReachFrom s t) :
    ∀ x ∈ s.visited, x ∈ t.visited := by
  induction h with
  | refl => exact fun x hx => hx
  | tail hab hbc ih => exact fun x hx => step_visited_mono hbc x (ih x hx)

/-- One step preserves: dispatched URLs are distinct and all visited. -/
theorem step_dispatched_inv {s t : CrawlState} (h : Step s t)
    (hn : (s.dispatched.map Prod.fst).Nodup)
    (hsub : ∀ u ∈ s.dispatched.map Prod.fst, u ∈ s.visited) :
    (t.dispatched.map Prod.fst).Nodup ∧
      ∀ u ∈ t.dispatched.map Prod.fst, u ∈ t.visited := by
  cases h with
  | dispatch u d rest hq hv hd =>
    have hu : u ∉ s.dispatched.map Prod.fst := fun hc => hv (hsub _ hc)
    constructor
    · simpa [List.nodup_append, hn] using hu
    · intro x hx
      rw [List.map_append] at hx
      rcases List.mem_append.mp hx with h1 | h2
      · exact List.mem_append_left _ (hsub _ h1)
      · simp only [List.map_cons, List.map_nil, List.mem_singleton] at h2
        subst h2
        exact List.mem_append_right _ (by simp)
  | dropHead u d rest hq hdrop => exact ⟨hn, hsub⟩
  | enqueue parent d link hp hv hq hd => exact ⟨hn, hsub⟩
  | formVisit parent d uB uA b hp hne hv hb ho =>
    exact ⟨hn, fun x hx => List.mem_append_left _ (hsub x hx)⟩

theorem reach_dispatched_inv {startUrl : String} {s : CrawlState}
    (h : Reach startUrl s) :
    (s.dispatched.map Prod.fst).Nodup ∧
      ∀ u ∈ s.dispatched.map Prod.fst, u ∈ s.visited := by
  induction h with
  | refl => simp [initState]
  | tail hab hbc ih => exact step_dispatched_inv hbc ih.1 ih.2

/-- C2: the dispatch log of every reachable state mentions each URL at
most once — the visited-set test-and-set at the start of
`processUrlAndExtractData` is atomic (no suspension point between `has`
and `add`), so one URL is processed by at most one session per run. -/
theorem processedAtMostOnce {startUrl : String} {s : CrawlState}
    (h : Reach startUrl s) (u : String) :
    (s.dispatched.map Prod.fst).count u ≤ 1 :=
  List.nodup_iff_count_le_one.mp (reach_dispatched_inv h).1 u

theorem processedAtMostOnce_witness :
    ((CrawlState.mk ["https://a.test/"] [] [("https://a.test/", 0)]).dispatched.map
        Prod.fst).count "https://a.test/" ≤ 1 := by
  have h1 : Step (initState "https://a.test/")
      (CrawlState.mk ["https://a.test/"] [] [("https://a.test/", 0)]) :=
    Step.dispatch _ "https://a.test/" 0 [] rfl (by simp [initState]) (by decide)
  exact processedAtMostOnce (Relation.ReflTransGen.single h1) _

/-- C3: every dispatched frontier item respects the depth bound — items
are enqueued only with depth + 1 ≤ MAX_DEPTH and deeper dequeued items
are dropped before a session is launched. -/
theorem dispatchedDepthBounded {startUrl : String} {s : CrawlState}
    (h : Reach startUrl s) : ∀ p ∈ s.dispatched, p.2 ≤ MAX_DEPTH := by
  induction h with
  | refl => simp [initState]
  | tail hab hbc ih =>
    cases hbc with
    | dispatch u d rest hq hv hd =>
      intro p hp
      rcases List.mem_append.mp hp with h1 | h2
      · exact ih _ h1
      · rw [List.mem_singleton.mp h2]
        exact hd
    | dropHead u d rest hq hdrop => exact ih
    | enqueue parent d link hp hv hq hd => exact ih
    | formVisit parent d uB uA b hp hne hv hb ho => exact ih

theorem dispatchedDepthBounded_witness :
    (("https://b.test/", 0) : String × Nat).2 ≤ MAX_DEPTH := by
  have h1 : Step (initState "https://b.test/")
      (CrawlState.mk ["https://b.test/"] [] [("https://b.test/", 0)]) :=
    Step.dispatch _ "https://b.test/" 0 [] rfl (by simp [initState]) (by decide)
  exact dispatchedDepthBounded (Relation.ReflTransGen.single h1)
    ("https://b.test/", 0) (by simp)

/-- Once a URL is visited, later steps never dispatch it again. -/
theorem step_count_frozen {s t : CrawlState} (h : Step s t) {u : String}
    (hu : u ∈ s.visited) :
    (t.dispatched.map Prod.fst).count u = (s.dispatched.map Prod.fst).count u ∧
      u ∈ t.visited := by
  cases h with
  | dispatch v d rest hq hv hd =>
    have hne : u ≠ v := fun he => hv (he ▸ hu)
    constructor
    · simp [List.count_append, List.count_eq_zero.mpr, hne]
    · exact List.mem_append_left _ hu
  | dropHead v d rest hq hdrop => exact ⟨rfl, hu⟩
  | enqueue parent d link hp hv hq hd => exact ⟨rfl, hu⟩
  | formVisit parent d uB uA b hp hne hv hb ho =>
    exact ⟨rfl, List.mem_append_left _ hu⟩

theorem reachFrom_count_frozen {s t : CrawlState} (h : ReachFrom s t) {u : String}
    (hu : u ∈ s.visited) :
    (t.dispatched.map Prod.fst).count u = (s.dispatched.map Prod.fst).count u ∧
      u ∈ t.visited := by
  induction h with
  | refl => exact ⟨rfl, hu⟩
  | tail hab hbc ih =>
    obtain ⟨hc, hv⟩ := ih
    obtain ⟨hc2, hv2⟩ := step_count_frozen hbc hv
    exact ⟨hc2.trans hc, hv2⟩

/-- C10: when a form submission navigates a session (dispatched for
`parent` at depth `d`) from `uBefore` to a new same-origin `uAfter` not
yet visited, `uAfter` is inserted directly into the visited set; in every
later state it stays visited (so it appears in the final crawled-URL
summary) and its dispatch count is zero — the scheduler never launches a
dedicated session for it, so it never receives its own initial
extraction pass. -/
theorem formVisitNeverDispatched
    {startUrl parent : String} {d : Nat} {uBefore uAfter : String} {b : Url}
    {s t : CrawlState}
    (hreach : Reach startUrl s)
    (hp : (parent, d) ∈ s.dispatched)
    (hne : uAfter ≠ uBefore)
    (hv : uAfter ∉ s.visited)
    (hb : parseAbsUrl parent = some b)
    (ho : strStarts uAfter (urlOrigin b) = true)
    (hrest : ReachFrom { s with visited := s.visited ++ [uAfter] } t) :
    uAfter ∈ t.visited ∧ (t.dispatched.map Prod.fst).count uAfter = 0 := by
  obtain ⟨hn, hsub⟩ := reach_dispatched_inv hreach
  have h0 : (s.dispatched.map Prod.fst).count uAfter = 0 :=
    List.count_eq_zero.mpr fun hc => hv (hsub _ hc)
  have hu : uAfter ∈ ({ s with visited := s.visited ++ [uAfter] } : CrawlState).visited := by
    simp
  obtain ⟨hc, hvt⟩ := reachFrom_count_frozen hrest hu
  exact ⟨hvt, hc.trans h0⟩

/-! ## JSON walker lemmas -/

theorem sensMarkers_addSet_pos {x : String}
    (hx : strStarts x "[JSON_SENSITIVE_KEY]" = true) (l : List String) :
    sensMarkers (addSet l x) = addSet (sensMarkers l) x :=
  @filter_addSet_pos (fun e => strStarts e "[JSON_SENSITIVE_KEY]") x hx l

theorem sensMarkers_addSet_neg {x : String}
    (hx : strStarts x "[JSON_SENSITIVE_KEY]" = false) (l : List String) :
    sensMarkers (addSet l x) = sensMarkers l :=
  @filter_addSet_neg (fun e => strStarts e "[JSON_SENSITIVE_KEY]") x hx l

theorem jsonUrlCheck_forms (b v : String) (pd : PageData) :
    (jsonUrlCheck b v pd).forms = pd.forms := by
  unfold jsonUrlCheck
  dsimp only
  repeat' split
  all_goals rfl

theorem jsonUrlCheck_endpoints_sens (b v : String) (pd : PageData) :
    sensMarkers (jsonUrlCheck b v pd).endpoints = sensMarkers pd.endpoints := by
  unfold jsonUrlCheck
  dsimp only
  repeat' split
  all_goals first
    | rfl
    | exact sensMarkers_addSet_neg (api_entry_not_tagged _) _

theorem jsonSensitiveCheck_forms (b k : String) (pd : PageData) :
    (jsonSensitiveCheck b k pd).forms = pd.forms := by
  unfold jsonSensitiveCheck
  split <;> rfl

theorem jsonSensitiveCheck_links (b k : String) (pd : PageData) :
    (jsonSensitiveCheck b k pd).links = pd.links := by
  unfold jsonSensitiveCheck
  split <;> rfl

/-- The sensitive-key check acts on the `[JSON_SENSITIVE_KEY]` sub-list of
the endpoints in the same way on both sides of a run pair. -/
theorem jsonSensitiveCheck_endpoints_sens (b k : String) {pd1 pd2 : PageData}
    (h : sensMarkers pd1.endpoints = sensMarkers pd2.endpoints) :
    sensMarkers (jsonSensitiveCheck b k pd1).endpoints
      = sensMarkers (jsonSensitiveCheck b k pd2).endpoints := by
  unfold jsonSensitiveCheck
  split
  · show sensMarkers (addSet pd1.endpoints ("[JSON_SENSITIVE_KEY] " ++ k ++ " on " ++ b))
      = sensMarkers (addSet pd2.endpoints ("[JSON_SENSITIVE_KEY] " ++ k ++ " on " ++ b))
    rw [sensMarkers_addSet_pos (sens_entry_tagged k b) pd1.endpoints,
      sensMarkers_addSet_pos (sens_entry_tagged k b) pd2.endpoints, h]
  · exact h

theorem extractDataFromJson_forms : ∀ (j : Json) (b : String) (pd : PageData),
    (extractDataFromJson j b pd).forms = pd.forms
  | .null, _, _ => rfl
  | .bool _, _, _ => rfl
  | .num _, _, _ => rfl
  | .str _, _, _ => rfl
  | .arrNil, _, _ => rfl
  | .objNil, _, _ => rfl
  | .objCons k v tl, b, pd => by
    cases v with
    | null => exact extractDataFromJson_forms tl b pd
    | bool a => exact extractDataFromJson_forms tl b pd
    | num n => exact extractDataFromJson_forms tl b pd
    | arrNil => exact extractDataFromJson_forms tl b pd
    | objNil => exact extractDataFromJson_forms tl b pd
    | str s =>
      exact (extractDataFromJson_forms tl b
          (jsonSensitiveCheck b k (jsonUrlCheck b s pd))).trans
        ((jsonSensitiveCheck_forms b k _).trans (jsonUrlCheck_forms b s pd))
    | arrCons h t =>
      exact (extractDataFromJson_forms tl b _).trans
        (extractDataFromJson_forms (.arrCons h t) b pd)
    | objCons k2 v2 t2 =>
      exact (extractDataFromJson_forms tl b _).trans
        (extractDataFromJson_forms (.objCons k2 v2 t2) b pd)
  | .arrCons v tl, b, pd => by
    cases v with
    | null => exact extractDataFromJson_forms tl b pd
    | bool a => exact extractDataFromJson_forms tl b pd
    | num n => exact extractDataFromJson_forms tl b pd
    | arrNil => exact extractDataFromJson_forms tl b pd
    | objNil => exact extractDataFromJson_forms tl b pd
    | str s =>
      exact (extractDataFromJson_forms tl b (jsonUrlCheck b s pd)).trans
        (jsonUrlCheck_forms b s pd)
    | arrCons h t =>
      exact (extractDataFromJson_forms tl b _).trans
        (extractDataFromJson_forms (.arrCons h t) b pd)
    | objCons k2 v2 t2 =>
      exact (extractDataFromJson_forms tl b _).trans
        (extractDataFromJson_forms (.objCons k2 v2 t2) b pd)

/-- Links admitted by the JSON URL heuristic are string-prefixed by the
origin of the page URL the body was walked against. -/
theorem jsonUrlCheck_links_origin {b v : String} {pd : PageData} {l : String}
    (h : l ∈ (jsonUrlCheck b v pd).links) :
    l ∈ pd.links ∨
      ∃ u, parseAbsUrl b = some u ∧ strStarts l (urlOrigin u) = true := by
  unfold jsonUrlCheck at h
  split at h
  case isTrue =>
    split at h
    case h_1 => exact Or.inl h
    case h_2 baseU heq =>
      split at h
      case h_1 => exact Or.inl h
      case h_2 u2 heq2 =>
        dsimp only at h
        split at h
        case isTrue hst =>
          rcases mem_addSet_elim h with h1 | h2
          · exact Or.inl h1
          · exact Or.inr ⟨baseU, heq, h2 ▸ hst⟩
        case isFalse => exact Or.inl h
  case isFalse => exact Or.inl h

theorem extractDataFromJson_links_origin :
    ∀ (j : Json) (b : String) (pd : PageData) (l : String),
      l ∈ (extractDataFromJson j b pd).links →
      l ∈ pd.links ∨
        ∃ u, parseAbsUrl b = some u ∧ strStarts l (urlOrigin u) = true
  | .null, _, _, _ => fun h => Or.inl h
  | .bool _, _, _, _ => fun h => Or.inl h
  | .num _, _, _, _ => fun h => Or.inl h
  | .str _, _, _, _ => fun h => Or.inl h
  | .arrNil, _, _, _ => fun h => Or.inl h
  | .objNil, _, _, _ => fun h => Or.inl h
  | .objCons k v tl, b, pd, l => fun h => by
    cases v with
    | null => exact extractDataFromJson_links_origin tl b pd l h
    | bool a => exact extractDataFromJson_links_origin tl b pd l h
    | num n => exact extractDataFromJson_links_origin tl b pd l h
    | arrNil => exact extractDataFromJson_links_origin tl b pd l h
    | objNil => exact extractDataFromJson_links_origin tl b pd l h
    | str s =>
      rcases extractDataFromJson_links_origin tl b
          (jsonSensitiveCheck b k (jsonUrlCheck b s pd)) l h with h1 | h2
      · rw [jsonSensitiveCheck_links] at h1
        exact jsonUrlCheck_links_origin h1
      · exact Or.inr h2
    | arrCons ha ta =>
      rcases extractDataFromJson_links_origin tl b
          (extractDataFromJson (.arrCons ha ta) b pd) l h with h1 | h2
      · exact extractDataFromJson_links_origin (.arrCons ha ta) b pd l h1
      · exact Or.inr h2
    | objCons k2 v2 t2 =>
      rcases extractDataFromJson_links_origin tl b
          (extractDataFromJson (.objCons k2 v2 t2) b pd) l h with h1 | h2
      · exact extractDataFromJson_links_origin (.objCons k2 v2 t2) b pd l h1
      · exact Or.inr h2
  | .arrCons v tl, b, pd, l => fun h => by
    cases v with
    | null => exact extractDataFromJson_links_origin tl b pd l h
    | bool a => exact extractDataFromJson_links_origin tl b pd l h
    | num n => exact extractDataFromJson_links_origin tl b pd l h
    | arrNil => exact extractDataFromJson_links_origin tl b pd l h
    | objNil => exact extractDataFromJson_links_origin tl b pd l h
    | str s =>
      rcases extractDataFromJson_links_origin tl b (jsonUrlCheck b s pd) l h with h1 | h2
      · exact jsonUrlCheck_links_origin h1
      · exact Or.inr h2
    | arrCons ha ta =>
      rcases extractDataFromJson_links_origin tl b
          (extractDataFromJson (.arrCons ha ta) b pd) l h with h1 | h2
      · exact extractDataFromJson_links_origin (.arrCons ha ta) b pd l h1
      · exact Or.inr h2
    | objCons k2 v2 t2 =>
      rcases extractDataFromJson_links_origin tl b
          (extractDataFromJson (.objCons k2 v2 t2) b pd) l h with h1 | h2
      · exact extractDataFromJson_links_origin (.objCons k2 v2 t2) b pd l h1
      · exact Or.inr h2

/-- Noninterference of the sensitive-key markers: walking two JSON bodies
that differ only in string values under sensitive keys produces the same
`[JSON_SENSITIVE_KEY]` entries. -/
theorem extractDataFromJson_sens_noninterference {j1 j2 : Json}
    (h : SensEquiv j1 j2) :
    ∀ (b : String) (pd1 pd2 : PageData),
      sensMarkers pd1.endpoints = sensMarkers pd2.endpoints →
      sensMarkers (extractDataFromJson j1 b pd1).endpoints
        = sensMarkers (extractDataFromJson j2 b pd2).endpoints := by
  induction h with
  | null => exact fun b pd1 pd2 hpd => hpd
  | bool a => exact fun b pd1 pd2 hpd => hpd
  | num n => exact fun b pd1 pd2 hpd => hpd
  | str s => exact fun b pd1 pd2 hpd => hpd
  | arrNil => exact fun b pd1 pd2 hpd => hpd
  | objNil => exact fun b pd1 pd2 hpd => hpd
  | arrCons hxy hxs ih1 ih2 =>
    intro b pd1 pd2 hpd
    cases hxy with
    | null => exact ih2 b pd1 pd2 hpd
    | bool a => exact ih2 b pd1 pd2 hpd
    | num n => exact ih2 b pd1 pd2 hpd
    | arrNil => exact ih2 b pd1 pd2 hpd
    | objNil => exact ih2 b pd1 pd2 hpd
    | str s =>
      refine ih2 b (jsonUrlCheck b s pd1) (jsonUrlCheck b s pd2) ?_
      rw [jsonUrlCheck_endpoints_sens, jsonUrlCheck_endpoints_sens]
      exact hpd
    | arrCons hxy2 hxs2 => exact ih2 b _ _ (ih1 b pd1 pd2 hpd)
    | objCons k hvw2 hfs2 => exact ih2 b _ _ (ih1 b pd1 pd2 hpd)
    | objConsSens k s t hk2 hfs2 => exact ih2 b _ _ (ih1 b pd1 pd2 hpd)
  | objCons k hvw hfs ih1 ih2 =>
    intro b pd1 pd2 hpd
    cases hvw with
    | null => exact ih2 b pd1 pd2 hpd
    | bool a => exact ih2 b pd1 pd2 hpd
    | num n => exact ih2 b pd1 pd2 hpd
    | arrNil => exact ih2 b pd1 pd2 hpd
    | objNil => exact ih2 b pd1 pd2 hpd
    | str s =>
      refine ih2 b (jsonSensitiveCheck b k (jsonUrlCheck b s pd1))
        (jsonSensitiveCheck b k (jsonUrlCheck b s pd2)) ?_
      apply jsonSensitiveCheck_endpoints_sens
      rw [jsonUrlCheck_endpoints_sens, jsonUrlCheck_endpoints_sens]
      exact hpd
    | arrCons hxy2 hxs2 => exact ih2 b _ _ (ih1 b pd1 pd2 hpd)
    | objCons k2 hvw2 hfs2 => exact ih2 b _ _ (ih1 b pd1 pd2 hpd)
    | objConsSens k2 s t hk2 hfs2 => exact ih2 b _ _ (ih1 b pd1 pd2 hpd)
  | objConsSens k s t hk hfs ih =>
    intro b pd1 pd2 hpd
    refine ih b (jsonSensitiveCheck b k (jsonUrlCheck b s pd1))
      (jsonSensitiveCheck b k (jsonUrlCheck b t pd2)) ?_
    apply jsonSensitiveCheck_endpoints_sens
    rw [jsonUrlCheck_endpoints_sens, jsonUrlCheck_endpoints_sens]
    exact hpd

/-! ## Anchor, observer and DOM-extraction lemmas -/

/-- Every link the anchor extractor admits passes the string-prefix check
against the extraction base's origin. -/
theorem anchorLink_starts {base : Url} {cur href l : String}
    (h : anchorLink base cur href = some l) : strStarts l (urlOrigin base) = true := by
  unfold anchorLink at h
  split at h
  · exact absurd h (by simp)
  · try dsimp only at h
    split at h
    case h_1 => exact absurd h (by simp)
    case h_2 fullUrl =>
      try dsimp only at h
      split at h
      case isTrue hst =>
        rw [Option.some_inj.mp h] at hst
        exact hst
      case isFalse => exact absurd h (by simp)

theorem onRequest_links (pd : PageData) (url method resourceType : String) :
    (onRequest pd url method resourceType).links = pd.links := by
  unfold onRequest
  dsimp only
  repeat' split
  all_goals rfl

theorem onRequest_forms (pd : PageData) (url method resourceType : String) :
    (onRequest pd url method resourceType).forms = pd.forms := by
  unfold onRequest
  dsimp only
  repeat' split
  all_goals rfl

theorem onResponse_links_origin {pageUrl : String} {pd : PageData} {url : String}
    {status : Nat} {method resourceType : String} {jsonBody : Option Json} {l : String}
    (h : l ∈ (onResponse pageUrl pd url status method resourceType jsonBody).links) :
    l ∈ pd.links ∨
      ∃ u, parseAbsUrl pageUrl = some u ∧ strStarts l (urlOrigin u) = true := by
  cases jsonBody with
  | some j =>
    unfold onResponse at h
    dsimp only at h
    have key : ∀ (pdx : PageData), l ∈ (extractDataFromJson j pageUrl pdx).links →
        pdx.links = pd.links →
        l ∈ pd.links ∨
          ∃ u, parseAbsUrl pageUrl = some u ∧ strStarts l (urlOrigin u) = true := by
      intro pdx hmem hlinks
      rcases extractDataFromJson_links_origin j pageUrl pdx l hmem with h1 | h2
      · exact Or.inl (hlinks ▸ h1)
      · exact Or.inr h2
    exact key _ h (by split <;> rfl)
  | none =>
    left
    unfold onResponse at h
    dsimp only at h
    split at h <;> exact h

theorem onResponse_forms (pageUrl : String) (pd : PageData) (url : String)
    (status : Nat) (method resourceType : String) (jsonBody : Option Json) :
    (onResponse pageUrl pd url status method resourceType jsonBody).forms = pd.forms := by
  cases jsonBody with
  | some j =>
    unfold onResponse
    dsimp only
    rw [extractDataFromJson_forms j pageUrl _]
    split <;> rfl
  | none =>
    unfold onResponse
    dsimp only
    split <;> rfl

theorem observerFold_links_origin (pageUrl : String) :
    ∀ (events : List NetEvent) (pd : PageData) (l : String),
      l ∈ (events.foldl (observerStep pageUrl) pd).links →
      l ∈ pd.links ∨
        ∃ u, parseAbsUrl pageUrl = some u ∧ strStarts l (urlOrigin u) = true := by
  intro events
  induction events with
  | nil => exact fun pd l h => Or.inl h
  | cons e rest ih =>
    intro pd l h
    rw [List.foldl_cons] at h
    rcases ih _ l h with h1 | h2
    · cases e with
      | request url method resourceType =>
        rw [show observerStep pageUrl pd (.request url method resourceType)
            = onRequest pd url method resourceType from rfl, onRequest_links] at h1
        exact Or.inl h1
      | response url status method resourceType jsonBody =>
        exact onResponse_links_origin h1
    · exact Or.inr h2

theorem observerFold_forms (pageUrl : String) :
    ∀ (events : List NetEvent) (pd : PageData),
      (events.foldl (observerStep pageUrl) pd).forms = pd.forms := by
  intro events
  induction events with
  | nil => exact fun pd => rfl
  | cons e rest ih =>
    intro pd
    rw [List.foldl_cons, ih _]
    cases e with
    | request url method resourceType => exact onRequest_forms pd url method resourceType
    | response url status method resourceType jsonBody =>
      exact onResponse_forms pageUrl pd url status method resourceType jsonBody

theorem anchorsFold_links {base : Url} {cur : String} :
    ∀ (anchors : List String) (pd : PageData) (l : String),
      l ∈ (anchors.foldl (fun pd href =>
          match anchorLink base cur href with
          | some l => { pd with links := addSet pd.links l }
          | none => pd) pd).links →
      l ∈ pd.links ∨ strStarts l (urlOrigin base) = true := by
  intro anchors
  induction anchors with
  | nil => exact fun pd l h => Or.inl h
  | cons href rest ih =>
    intro pd l h
    rw [List.foldl_cons] at h
    rcases ih _ l h with h1 | h2
    · cases hal : anchorLink base cur href with
      | none =>
        rw [hal] at h1
        exact Or.inl h1
      | some l2 =>
        rw [hal] at h1
        rcases mem_addSet_elim h1 with ha | hb
        · exact Or.inl ha
        · exact Or.inr (hb ▸ anchorLink_starts hal)
    · exact Or.inr h2

theorem formsFold_links {base : Url} {cur req : String} :
    ∀ (formEls : List FormElem) (pd : PageData),
      ((formEls.foldl (fun pd f =>
          match extractForm base cur req f with
          | some fd => { pd with forms := pd.forms ++ [fd] }
          | none => pd) pd)).links = pd.links := by
  intro formEls
  induction formEls with
  | nil => exact fun pd => rfl
  | cons f rest ih =>
    intro pd
    rw [List.foldl_cons, ih _]
    cases extractForm base cur req f <;> rfl

theorem endpointsFold_links {base : Url} :
    ∀ (ms : List ScriptMatch) (pd : PageData),
      ((ms.foldl (fun pd m =>
          match scriptEndpointEntry base m with
          | some e => { pd with endpoints := addSet pd.endpoints e }
          | none => pd) pd)).links = pd.links := by
  intro ms
  induction ms with
  | nil => exact fun pd => rfl
  | cons m rest ih =>
    intro pd
    rw [List.foldl_cons, ih _]
    cases scriptEndpointEntry base m <;> rfl

theorem scriptEndpointsInto_links (base : Url) (content : String) (pd : PageData) :
    (scriptEndpointsInto base content pd).links = pd.links := by
  unfold scriptEndpointsInto
  split
  · rfl
  · exact endpointsFold_links _ pd

theorem scriptsFold_links {base : Url} :
    ∀ (ss : List String) (pd : PageData),
      ((ss.foldl (fun pd s => scriptEndpointsInto base s pd) pd)).links = pd.links := by
  intro ss
  induction ss with
  | nil => exact fun pd => rfl
  | cons s rest ih =>
    intro pd
    rw [List.foldl_cons, ih _, scriptEndpointsInto_links]

theorem resourcesFold_links {base : Url} :
    ∀ (rs : List String) (pd : PageData),
      ((rs.foldl (fun pd src =>
          if src = "" then pd
          else
            match resolveUrl src base with
            | some u =>
              { pd with endpoints := addSet pd.endpoints ("[RESOURCE_URL] " ++ urlToString u) }
            | none => pd) pd)).links = pd.links := by
  intro rs
  induction rs with
  | nil => exact fun pd => rfl
  | cons src rest ih =>
    intro pd
    rw [List.foldl_cons, ih _]
    split
    · rfl
    · cases resolveUrl src base <;> rfl

theorem domExtract_links {base : Url} {cur req : String} {doc : Dom} {pd : PageData}
    {l : String} (h : l ∈ (domExtract base cur req doc pd).links) :
    l ∈ pd.links ∨ strStarts l (urlOrigin base) = true := by
  unfold domExtract at h
  dsimp only at h
  rw [resourcesFold_links, scriptsFold_links, formsFold_links] at h
  exact anchorsFold_links doc.anchors pd l h

/-- C1 (amended): every link recorded by a page's extraction pass merely
has the ORIGIN STRING of the URL it was checked against as a prefix — the
anchor extractor checks `fullUrl.startsWith(origin)` against the live
current URL and the JSON walker against the requested page URL — rather
than being origin-equal to the crawl's start URL. -/
theorem extractInfoLinksOriginPrefixed (url : String) (events : List NetEvent)
    (navOk : Bool) (cur : String) (doc : Dom) (l : String)
    (h : l ∈ (extractInfo url events navOk cur doc).links) :
    (∃ u, parseAbsUrl url = some u ∧ strStarts l (urlOrigin u) = true) ∨
    (∃ u, parseAbsUrl cur = some u ∧ strStarts l (urlOrigin u) = true) := by
  unfold extractInfo at h
  dsimp only at h
  have hfold : ∀ hf : l ∈ (events.foldl (observerStep url) emptyPageData).links,
      (∃ u, parseAbsUrl url = some u ∧ strStarts l (urlOrigin u) = true) ∨
      (∃ u, parseAbsUrl cur = some u ∧ strStarts l (urlOrigin u) = true) := by
    intro hf
    rcases observerFold_links_origin url events emptyPageData l hf with h0 | hP
    · exact absurd h0 (by simp [emptyPageData])
    · exact Or.inl hP
  split at h
  · split at h
    case h_1 base heq =>
      rcases domExtract_links h with h1 | h2
      · exact hfold h1
      · exact Or.inr ⟨base, heq, h2⟩
    case h_2 => exact hfold h
  · exact hfold h

theorem extractInfoLinksOriginPrefixed_witness :
    ("https://a.test/y" ∈
        (extractInfo "https://a.test/" [] true "https://a.test/" slashYDoc).links) ∧
    ((∃ u, parseAbsUrl "https://a.test/" = some u ∧
        strStarts "https://a.test/y" (urlOrigin u) = true) ∨
      (∃ u, parseAbsUrl "https://a.test/" = some u ∧
        strStarts "https://a.test/y" (urlOrigin u) = true)) :=
  ⟨by decide,
    extractInfoLinksOriginPrefixed "https://a.test/" [] true "https://a.test/"
      slashYDoc "https://a.test/y" (by decide)⟩

/-- C1 (counterexample): with the crawl at `https://a.test/`, an anchor to
the foreign origin `https://a.test.evil.com` passes the string-prefix
check and is recorded, although its origin differs from the start URL's
origin. -/
theorem linkEscapesStartOrigin :
    ("https://a.test.evil.com/x" ∈
        (extractInfo "https://a.test/" [] true "https://a.test/" evilLinkDoc).links) ∧
    originOfStr "https://a.test.evil.com/x" ≠ originOfStr "https://a.test/" := by
  constructor
  · decide
  · decide

/-- C4 (amended): when navigation fails, the session's extraction returns
exactly what the network observers accumulated — the DOM is never
consulted (the result is independent of the snapshot and contains no
forms) — and a failed session does not stop a sibling queued URL from
being processed (in the sibling scenario, the failing page `a`
contributes nothing while `b` is still dispatched). -/
theorem navFailureObserverBoundary :
    (∀ (url : String) (events : List NetEvent) (cur : String) (doc : Dom),
        extractInfo url events false cur doc
          = events.foldl (observerStep url) emptyPageData) ∧
    (∀ (url : String) (events : List NetEvent) (cur : String) (doc : Dom),
        (extractInfo url events false cur doc).forms = []) ∧
    ("https://s.test/b", 1) ∈ (crawlRun pagesSibling 3 (initState "https://s.test/")).dispatched := by
  refine ⟨fun url events cur doc => rfl, fun url events cur doc => ?_, by decide⟩
  exact observerFold_forms url events emptyPageData

/-- C4 (counterexample): a navigation that times out after the document
request to an API-shaped URL has fired still contributes an
`[INTERCEPTED]` endpoint — the observers write into the same `pageData`
that the catch path returns, so the failed session's findings are not
zero. -/
theorem navFailureContributesFindings :
    (extractInfo "https://a.test/api/x" navFailEvents false "https://a.test/api/x"
        emptyDom).endpoints = ["[INTERCEPTED] GET https://a.test/api/x"] ∧
    (extractInfo "https://a.test/api/x" navFailEvents false "https://a.test/api/x"
        emptyDom).endpoints ≠ [] := by
  constructor
  · decide
  · decide

/-- C6 (amended): the recorded `[JSON_SENSITIVE_KEY]` markers are
noninterferent with the string values stored under sensitive keys — two
walks of bodies that differ only in such values produce identical marker
entries (key name and source page only; the value never flows into the
marker). -/
theorem sensMarkersNoninterference {j1 j2 : Json} (h : SensEquiv j1 j2) (b : String) :
    sensMarkers (extractDataFromJson j1 b emptyPageData).endpoints
      = sensMarkers (extractDataFromJson j2 b emptyPageData).endpoints :=
  extractDataFromJson_sens_noninterference h b emptyPageData emptyPageData rfl

theorem sensMarkersNoninterference_witness :
    SensEquiv tokenJsonUrl tokenJsonPlain ∧
    sensMarkers (extractDataFromJson tokenJsonUrl "https://a.test/p"
        emptyPageData).endpoints
      = sensMarkers (extractDataFromJson tokenJsonPlain "https://a.test/p"
          emptyPageData).endpoints := by
  have hse : SensEquiv tokenJsonUrl tokenJsonPlain :=
    SensEquiv.objConsSens "token" "http://evil.example/x" "zz" (by decide)
      SensEquiv.objNil
  exact ⟨hse, sensMarkersNoninterference hse "https://a.test/p"⟩

/-- C6 (counterexample): two runs that differ only in the string value
under the sensitive key `token` do NOT produce the same recorded endpoint
entries — a URL-shaped value additionally flows into a
`[JSON_API_RESPONSE]` entry. -/
theorem sensValueChangesEndpoints :
    SensEquiv tokenJsonUrl tokenJsonPlain ∧
    (extractDataFromJson tokenJsonUrl "https://a.test/p" emptyPageData).endpoints
      ≠ (extractDataFromJson tokenJsonPlain "https://a.test/p" emptyPageData).endpoints := by
  constructor
  · exact SensEquiv.objConsSens "token" "http://evil.example/x" "zz" (by decide)
      SensEquiv.objNil
  · decide

/-! ## Termination of the sequential crawl loop (C5) -/

theorem enqueueLinks_mem {visited' : List String} {d : Nat} :
    ∀ (links : List String) (q : List (String × Nat)) (p : String × Nat),
      p ∈ enqueueLinks visited' d q links → p ∈ q ∨ p.1 ∈ links := by
  intro links
  induction links with
  | nil => exact fun q p hp => Or.inl hp
  | cons link rest ih =>
    intro q p hp
    rw [enqueueLinks] at hp
    rcases ih _ p hp with h1 | h2
    · split at h1
      · rcases List.mem_append.mp h1 with ha | hb
        · exact Or.inl ha
        · right
          rw [List.mem_singleton.mp hb]
          exact List.mem_cons_self _ _
      · exact Or.inl h1
    · exact Or.inr (List.mem_cons_of_mem _ h2)

theorem enqueueLinks_length {visited' : List String} {d : Nat} :
    ∀ (links : List String) (q : List (String × Nat)),
      (enqueueLinks visited' d q links).length ≤ q.length + links.length := by
  intro links
  induction links with
  | nil => intro q; simp [enqueueLinks]
  | cons link rest ih =>
    intro q
    rw [enqueueLinks]
    have hone :
        (if link ∉ visited' ∧ link ∉ q.map Prod.fst ∧ d + 1 ≤ MAX_DEPTH then
            q ++ [(link, d + 1)]
          else q).length ≤ q.length + 1 := by
      split <;> simp
    have := ih (if link ∉ visited' ∧ link ∉ q.map Prod.fst ∧ d + 1 ≤ MAX_DEPTH then
        q ++ [(link, d + 1)]
      else q)
    simp only [List.length_cons]
    omega

theorem crawl_measure_aux (pages : String → List String) (U : Finset String) (B : Nat)
    (hpages : ∀ u ∈ U, ∀ l ∈ pages u, l ∈ U)
    (hB : ∀ u ∈ U, (pages u).length ≤ B) :
    ∀ (m : Nat) (s : CrawlState),
      (∀ p ∈ s.queue, p.1 ∈ U) →
      (U.filter (fun x => x ∉ s.visited)).card * (B + 1) + s.queue.length ≤ m →
      ∃ n, (crawlRun pages n s).queue = [] := by
  intro m
  induction m with
  | zero =>
    intro s hq hm
    have : s.queue.length = 0 := by omega
    exact ⟨0, List.length_eq_zero.mp this⟩
  | succ m ih =>
    intro s hq hm
    cases hqs : s.queue with
    | nil => exact ⟨0, hqs⟩
    | cons p rest =>
      obtain ⟨u, d⟩ := p
      have hqlen : s.queue.length = rest.length + 1 := by rw [hqs]; rfl
      by_cases hdrop : u ∈ s.visited ∨ MAX_DEPTH < d
      · have hstep : crawlStep pages s = { s with queue := rest } := by
          unfold crawlStep
          rw [hqs]
          exact if_pos hdrop
        have hq' : ∀ p ∈ rest, p.1 ∈ U := fun p hp =>
          hq p (by rw [hqs]; exact List.mem_cons_of_mem _ hp)
        have hm' :
            (U.filter (fun x => x ∉ s.visited)).card * (B + 1) + rest.length ≤ m := by
          omega
        obtain ⟨n, hn⟩ := ih { s with queue := rest } hq' hm'
        refine ⟨n + 1, ?_⟩
        rw [show crawlRun pages (n + 1) s = crawlRun pages n (crawlStep pages s) from rfl,
          hstep]
        exact hn
      · have huU : u ∈ U := hq (u, d) (by rw [hqs]; exact List.mem_cons_self _ _)
        have hun : u ∉ s.visited := fun hc => hdrop (Or.inl hc)
        have hstep : crawlStep pages s =
            { visited := s.visited ++ [u]
              queue := enqueueLinks (s.visited ++ [u]) d rest (pages u)
              dispatched := s.dispatched ++ [(u, d)] } := by
          unfold crawlStep
          rw [hqs]
          exact if_neg hdrop
        have hq' : ∀ p ∈ enqueueLinks (s.visited ++ [u]) d rest (pages u), p.1 ∈ U := by
          intro p hp
          rcases enqueueLinks_mem _ _ p hp with h1 | h2
          · exact hq p (by rw [hqs]; exact List.mem_cons_of_mem _ h1)
          · exact hpages u huU _ h2
        have hcard :
            (U.filter (fun x => x ∉ s.visited ++ [u])).card + 1 ≤
              (U.filter (fun x => x ∉ s.visited)).card := by
          have hsub : U.filter (fun x => x ∉ s.visited ++ [u]) ⊆
              U.filter (fun x => x ∉ s.visited) := by
            intro x hx
            rw [Finset.mem_filter] at hx ⊢
            exact ⟨hx.1, fun hmem => hx.2 (List.mem_append_left _ hmem)⟩
          have humem : u ∈ U.filter (fun x => x ∉ s.visited) :=
            Finset.mem_filter.mpr ⟨huU, hun⟩
          have hunot : u ∉ U.filter (fun x => x ∉ s.visited ++ [u]) := by
            rw [Finset.mem_filter]
            rintro ⟨-, hnu⟩
            exact hnu (List.mem_append_right _ (by simp))
          have := Finset.card_lt_card
            ((Finset.ssubset_iff_of_subset hsub).mpr ⟨u, humem, hunot⟩)
          omega
        have hlen :
            (enqueueLinks (s.visited ++ [u]) d rest (pages u)).length ≤
              rest.length + B := by
          have h1 : (enqueueLinks (s.visited ++ [u]) d rest (pages u)).length ≤
              rest.length + (pages u).length := enqueueLinks_length _ _
          have h2 := hB u huU
          omega
        have hm' :
            (U.filter (fun x => x ∉ s.visited ++ [u])).card * (B + 1) +
              (enqueueLinks (s.visited ++ [u]) d rest (pages u)).length ≤ m := by
          have e1 :
              ((U.filter (fun x => x ∉ s.visited ++ [u])).card + 1) * (B + 1) ≤
                (U.filter (fun x => x ∉ s.visited)).card * (B + 1) :=
            Nat.mul_le_mul_right _ hcard
          rw [Nat.succ_mul] at e1
          generalize (U.filter (fun x => x ∉ s.visited ++ [u])).card * (B + 1) = A
            at e1 ⊢
          generalize (U.filter (fun x => x ∉ s.visited)).card * (B + 1) = C at e1 hm
          omega
        obtain ⟨n, hn⟩ := ih
          { visited := s.visited ++ [u]
            queue := enqueueLinks (s.visited ++ [u]) d rest (pages u)
            dispatched := s.dispatched ++ [(u, d)] } hq' hm'
        refine ⟨n + 1, ?_⟩
        rw [show crawlRun pages (n + 1) s = crawlRun pages n (crawlStep pages s) from rfl,
          hstep]
        exact hn

/-- C5: on a finite link graph (all links stay inside a finite URL
universe, with a uniform bound on the links per page) the sequential
crawl loop empties the frontier after finitely many iterations — the
visited set grows into the finite universe on every processed item and
every other iteration shrinks the queue, so the loop terminates and the
crawl returns (after which the results are saved once). -/
theorem crawlTerminates (pages : String → List String) (startUrl : String)
    (U : Finset String) (B : Nat)
    (hstart : startUrl ∈ U)
    (hpages : ∀ u ∈ U, ∀ l ∈ pages u, l ∈ U)
    (hB : ∀ u ∈ U, (pages u).length ≤ B) :
    ∃ n, (crawlRun pages n (initState startUrl)).queue = [] := by
  apply crawl_measure_aux pages U B hpages hB (U.card * (B + 1) + 1) (initState startUrl)
  · intro p hp
    have hp1 : p = (startUrl, 0) := by simpa [initState] using hp
    rw [hp1]
    exact hstart
  · have hfil : (U.filter (fun x => x ∉ (initState startUrl).visited)).card ≤ U.card :=
      Finset.card_filter_le _ _
    have hq1 : (initState startUrl).queue.length = 1 := rfl
    have := Nat.mul_le_mul_right (B + 1) hfil
    generalize (U.filter (fun x => x ∉ (initState startUrl).visited)).card * (B + 1) = A
      at this ⊢
    generalize U.card * (B + 1) = C at this ⊢
    omega

theorem crawlTerminates_witness :
    ∃ n, (crawlRun pagesSmall n (initState "https://w.test/")).queue = [] :=
  crawlTerminates pagesSmall "https://w.test/" siteSmall 1 (by decide)
    (by decide)
    (by decide)

/-! ## Inline-script scanning lemmas (C8) -/

theorem matchLit_of_hasPre : ∀ {n cs : List Char}, charsHasPre n cs = true →
    matchLit n cs = some (cs.drop n.length)
  | [], cs, _ => rfl
  | l :: ls, [], h => by simp [charsHasPre] at h
  | l :: ls, c :: tl, h => by
    simp only [charsHasPre, Bool.and_eq_true, decide_eq_true_eq] at h
    simp only [matchLit, h.1, if_pos, List.length_cons, List.drop_succ_cons]
    exact matchLit_of_hasPre h.2

theorem matchLit_of_not_pre : ∀ {n cs : List Char}, charsHasPre n cs = false →
    matchLit n cs = none
  | [], cs, h => by simp [charsHasPre] at h
  | _ :: _, [], _ => rfl
  | l :: ls, c :: tl, h => by
    simp only [charsHasPre, Bool.and_eq_false_iff, decide_eq_false_iff_not] at h
    rcases h with h | h
    · simp [matchLit, h]
    · by_cases hlc : l = c
      · simp [matchLit, hlc, matchLit_of_not_pre h]
      · simp [matchLit, hlc]

theorem p6At_of_pre {cs : List Char}
    (h : charsHasPre "/graphql".toList cs = true) :
    p6At cs = some ("/graphql", cs.drop 8) := by
  have h' : matchLit (['/', 'g', 'r', 'a', 'p', 'h', 'q', 'l'] : List Char) cs
      = some (cs.drop 8) := matchLit_of_hasPre h
  simp [p6At, h']

theorem p6At_of_not_pre {cs : List Char}
    (h : charsHasPre "/graphql".toList cs = false) :
    p6At cs = none := by
  have h' : matchLit (['/', 'g', 'r', 'a', 'p', 'h', 'q', 'l'] : List Char) cs
      = none := matchLit_of_not_pre h
  simp [p6At, h']

theorem scanAllAux_p6_mem : ∀ (fuel : Nat) (cs : List Char),
    cs.length ≤ fuel → charsOccur "/graphql".toList cs = true →
    "/graphql" ∈ scanAllAux p6At fuel cs := by
  intro fuel
  induction fuel with
  | zero =>
    intro cs hlen hocc
    have hnil : cs = [] := List.length_eq_zero.mp (Nat.le_zero.mp hlen)
    subst hnil
    exact absurd hocc (by decide)
  | succ fuel ih =>
    intro cs hlen hocc
    cases cs with
    | nil => exact absurd hocc (by decide)
    | cons c tl =>
      by_cases hp : charsHasPre "/graphql".toList (c :: tl) = true
      · rw [scanAllAux, p6At_of_pre hp]
        exact List.mem_cons_self _ _
      · have hpf : charsHasPre "/graphql".toList (c :: tl) = false :=
          Bool.not_eq_true _ ▸ hp
        have hocc2 : charsOccur "/graphql".toList tl = true := by
          rw [show charsOccur "/graphql".toList (c :: tl)
              = (charsHasPre "/graphql".toList (c :: tl) ||
                  charsOccur "/graphql".toList tl) from rfl, hpf] at hocc
          simpa using hocc
        rw [scanAllAux, p6At_of_not_pre hpf]
        exact ih tl (Nat.le_of_succ_le_succ (by simpa using hlen)) hocc2

theorem scanAll_p6_mem {script : String} (h : strOccurs "/graphql" script = true) :
    "/graphql" ∈ scanAll p6At script.toList :=
  scanAllAux_p6_mem script.toList.length script.toList (Nat.le_refl _) h

theorem p6_match_mem {cs : List Char} (h : "/graphql" ∈ scanAll p6At cs) :
    ({ patternIndex := 6, url := "/graphql", method := some "POST" } : ScriptMatch)
      ∈ scriptMatches cs := by
  unfold scriptMatches
  refine List.mem_append_left _ (List.mem_append_right _ ?_)
  have h2 := List.mem_map_of_mem
    (fun u => ({ patternIndex := 6, url := u
                 method := if strOccurs "/graphql" u then some "POST" else none } :
      ScriptMatch)) h
  exact h2

/-- The pattern-6 entry of a bare `/graphql` match for any base URL. -/
theorem p6_entry (base : Url) :
    scriptEndpointEntry base { patternIndex := 6, url := "/graphql", method := some "POST" }
      = some ("[SCRIPT_EVIDENT] POST " ++ urlOrigin base ++ "/graphql") := by
  unfold scriptEndpointEntry
  have h1 : "/".intercalate ["graphql"] = "graphql" := rfl
  have h2 : strStarts "/graphql" "/" = true := rfl
  have h3 : resolveUrl "/graphql" base =
      some { base with pathSegs := ["graphql"], query := none, fragment := none } := rfl
  simp [h2, h3, urlToString, urlPathname, urlOrigin, h1, String.append_assoc,
    String.append_empty]

theorem endpointsFold_mem_mono {base : Url} :
    ∀ (ms : List ScriptMatch) (pd : PageData) (x : String), x ∈ pd.endpoints →
      x ∈ ((ms.foldl (fun pd m =>
          match scriptEndpointEntry base m with
          | some e => { pd with endpoints := addSet pd.endpoints e }
          | none => pd) pd)).endpoints := by
  intro ms
  induction ms with
  | nil => exact fun pd x hx => hx
  | cons m rest ih =>
    intro pd x hx
    rw [List.foldl_cons]
    apply ih
    cases hsm : scriptEndpointEntry base m with
    | none => exact hx
    | some e => exact mem_addSet_of_mem hx e

theorem endpointsFold_mem {base : Url} :
    ∀ (ms : List ScriptMatch) (pd : PageData) (m : ScriptMatch) (e : String),
      m ∈ ms → scriptEndpointEntry base m = some e →
      e ∈ ((ms.foldl (fun pd m =>
          match scriptEndpointEntry base m with
          | some e => { pd with endpoints := addSet pd.endpoints e }
          | none => pd) pd)).endpoints := by
  intro ms
  induction ms with
  | nil =>
    intro pd m e hm
    exact absurd hm (by simp)
  | cons m0 rest ih =>
    intro pd m e hm he
    rw [List.foldl_cons]
    rcases List.mem_cons.mp hm with h1 | h2
    · subst h1
      apply endpointsFold_mem_mono
      rw [he]
      exact mem_addSet_self _ _
    · exact ih _ m e h2 he

theorem scriptEndpointsInto_mem {base : Url} {content : String} {m : ScriptMatch}
    {e : String} (hne : content ≠ "") (hm : m ∈ scriptMatches content.toList)
    (he : scriptEndpointEntry base m = some e) (pd : PageData) :
    e ∈ (scriptEndpointsInto base content pd).endpoints := by
  unfold scriptEndpointsInto
  rw [if_neg hne]
  exact endpointsFold_mem _ pd m e hm he

/-- C8 (amended): the spec's example fetch script produces the evident
POST entry for `/api/login`, and EVERY inline script with a bare
`/graphql` occurrence produces the forced-POST `/graphql` entry for the
page's origin.  (The fetch half does not extend to every script merely
containing the call as a substring — see the counterexample, where an
earlier `fetch('` consumes the inner call's opening quote.) -/
theorem inlineScriptEndpointEntries :
    ("[SCRIPT_EVIDENT] POST https://a.test/api/login"
        ∈ (scriptEndpointsInto aTest fetchLit emptyPageData).endpoints) ∧
    (∀ (base : Url) (script : String), strOccurs "/graphql" script = true →
        ("[SCRIPT_EVIDENT] POST " ++ urlOrigin base ++ "/graphql")
          ∈ (scriptEndpointsInto base script emptyPageData).endpoints) := by
  constructor
  · decide
  · intro base script hocc
    have hne : script ≠ "" := by
      intro heq
      rw [heq] at hocc
      exact absurd hocc (by decide)
    exact scriptEndpointsInto_mem hne (p6_match_mem (scanAll_p6_mem hocc))
      (p6_entry base) emptyPageData

theorem inlineScriptEndpointEntries_witness :
    strOccurs "/graphql" gqlScriptEx = true ∧
    ("[SCRIPT_EVIDENT] POST " ++ urlOrigin aTest ++ "/graphql")
      ∈ (scriptEndpointsInto aTest gqlScriptEx emptyPageData).endpoints :=
  ⟨by decide, inlineScriptEndpointEntries.2 aTest gqlScriptEx (by decide)⟩

/-- C8 (counterexample): `fetchTrap` contains the literal
`fetch('/api/login', {method:'POST'})` as a substring, yet no
`[SCRIPT_EVIDENT] POST .../api/login` entry is produced: the scan's
earlier match at the outer `fetch('` captures up to the inner call's
opening quote, so the method group never matches. -/
theorem fetchCallInsideStringNotEvident :
    strOccurs fetchLit fetchTrap = true ∧
    "[SCRIPT_EVIDENT] POST https://a.test/api/login"
      ∉ (scriptEndpointsInto aTest fetchTrap emptyPageData).endpoints := by
  constructor
  · decide
  · decide

/-! ## Anchor resolution (C7) and form defaults (C9) -/

/-- C7 (amended): in `part_001` anchors resolve against the live current
URL (`../y` from `https://a.test/p/x` gives `https://a.test/y`, `#frag`
gives the current URL fragment-stripped, also after a redirect changed
the current URL), while the `src/advanced-crawler.js` extraction path
resolves against the originally requested URL — so "resolved against the
live current URL" holds in `part_001` but not in every code path. -/
theorem anchorResolutionByPath :
    parseAbsUrl "https://a.test/p/x" = some aTestPX ∧
    parseAbsUrl "https://a.test/q/z" = some aTestQZ ∧
    anchorLink aTestPX "https://a.test/p/x" "../y" = some "https://a.test/y" ∧
    anchorLink aTestPX "https://a.test/p/x" "#frag" = some "https://a.test/p/x" ∧
    anchorLink aTestQZ "https://a.test/q/z" "#frag" = some "https://a.test/q/z" ∧
    anchorLinkAdvanced "https://a.test/p/x" "https://a.test/q/z" "../y"
      = some "https://a.test/y" := by
  refine ⟨by decide, by decide, by decide, by decide, by decide, by decide⟩

/-- C7 (counterexample): with the session redirected to
`https://a.test/q/z`, the `src/advanced-crawler.js` path stores the
`#frag` link as the originally requested `https://a.test/p/x`, not as the
live current URL. -/
theorem advancedFragmentResolvesAgainstRequested :
    anchorLinkAdvanced "https://a.test/p/x" "https://a.test/q/z" "#frag"
      = some "https://a.test/p/x" ∧
    ("https://a.test/p/x" : String) ≠ "https://a.test/q/z" := by
  constructor
  · decide
  · decide

/-- C9 (amended): a form with no (or empty) method records `GET` and a
present method is upper-cased; a missing action records the current page
URL; a present non-empty action is resolved against the current URL
UNLESS it starts with the literal `http`, in which case it is kept
verbatim. -/
theorem extractForm_method_eq (base : Url) (cur req : String) (f : FormElem)
    (fd : FormDetails) (h : extractForm base cur req f = some fd) :
    fd.method = toUpperStr (jsOr f.method "GET") := by
  unfold extractForm at h
  dsimp only at h
  split at h
  next heq => exact absurd h (by simp)
  next actionAbs heq =>
    cases Option.some_inj.mp h
    rfl

theorem extractForm_action_eq (base : Url) (cur req : String) (f : FormElem)
    (fd : FormDetails) (h : extractForm base cur req f = some fd) :
    some fd.action =
      (if strStarts (jsOr f.action cur) "http" = true
        then some (jsOr f.action cur)
        else (resolveUrl (jsOr f.action cur) base).map urlToString) := by
  unfold extractForm at h
  dsimp only at h
  split at h
  next heq => exact absurd h (by simp)
  next actionAbs heq =>
    cases Option.some_inj.mp h
    exact heq.symm

theorem formDefaults (base : Url) (cur req : String) (f : FormElem)
    (hcur : strStarts cur "http" = true) :
    ((f.action = none ∨ f.action = some "") →
      extractForm base cur req f = some
        { url := req, action := cur, method := toUpperStr (jsOr f.method "GET")
          id := jsOr f.id "", name := jsOr f.name "", class' := jsOr f.class' ""
          fields := f.fields.map extractField }) ∧
    (f.method = none →
      ∀ fd, extractForm base cur req f = some fd → fd.method = "GET") ∧
    (∀ m, f.method = some m → m ≠ "" →
      ∀ fd, extractForm base cur req f = some fd → fd.method = toUpperStr m) ∧
    (∀ a u, f.action = some a → a ≠ "" → strStarts a "http" = false →
      resolveUrl a base = some u →
      ∀ fd, extractForm base cur req f = some fd → fd.action = urlToString u) := by
  refine ⟨?_, ?_, ?_, ?_⟩
  · intro ha
    have haction : jsOr f.action cur = cur := by
      rcases ha with h | h <;> simp [h, jsOr]
    unfold extractForm
    dsimp only
    rw [haction, if_pos hcur]
  · intro hm fd hfd
    rw [extractForm_method_eq base cur req f fd hfd, hm]
    rfl
  · intro m hm hne fd hfd
    rw [extractForm_method_eq base cur req f fd hfd, hm]
    show toUpperStr (if m = "" then "GET" else m) = toUpperStr m
    rw [if_neg hne]
  · intro a u ha hane hah hres fd hfd
    have haction : jsOr f.action cur = a := by simp [ha, jsOr, hane]
    have h4 := extractForm_action_eq base cur req f fd hfd
    rw [haction, if_neg (by simp [hah]), hres] at h4
    simpa using h4

theorem formDefaults_witness :
    strStarts "https://a.test/p" "http" = true ∧
    extractForm aTest "https://a.test/p" "https://a.test/p" noAttrForm = some
      { url := "https://a.test/p", action := "https://a.test/p", method := "GET"
        id := "", name := "", class' := "", fields := [] } := by
  refine ⟨by decide, ?_⟩
  exact (formDefaults aTest "https://a.test/p" "https://a.test/p" noAttrForm
    (by decide)).1 (Or.inl rfl)

/-- C9 (counterexample): the relative action `httpdocs/x` starts with the
literal `http`, so it is recorded verbatim instead of being resolved to
an absolute URL against the current page URL. -/
theorem httpPrefixedActionNotResolved :
    extractForm aTest "https://a.test/p" "https://a.test/p" httpdocsForm = some
      { url := "https://a.test/p", action := "httpdocs/x", method := "POST"
        id := "", name := "", class' := "", fields := [] } ∧
    (resolveUrl "httpdocs/x" aTest).map urlToString = some "https://a.test/httpdocs/x" ∧
    ("httpdocs/x" : String) ≠ "https://a.test/httpdocs/x" := by
  refine ⟨by decide, by decide, by decide⟩

theorem formVisitNeverDispatched_witness :
    "https://c.test/next" ∈
      (CrawlState.mk ["https://c.test/", "https://c.test/next"] []
        [("https://c.test/", 0)]).visited ∧
    ((CrawlState.mk ["https://c.test/", "https://c.test/next"] []
        [("https://c.test/", 0)]).dispatched.map Prod.fst).count
      "https://c.test/next" = 0 := by
  have h1 : Step (initState "https://c.test/")
      (CrawlState.mk ["https://c.test/"] [] [("https://c.test/", 0)]) :=
    Step.dispatch _ "https://c.test/" 0 [] rfl (by simp [initState]) (by decide)
  exact @formVisitNeverDispatched "https://c.test/" "https://c.test/" 0
    "https://c.test/" "https://c.test/next"
    { scheme := "https", host := "c.test", port := none
      pathSegs := [], query := none, fragment := none }
    (CrawlState.mk ["https://c.test/"] [] [("https://c.test/", 0)]) _
    (Relation.ReflTransGen.single h1) (by simp) (by decide) (by decide) (by decide)
    (by decide) Relation.ReflTransGen.refl

end Crawler
